import Mathlib

/-!
# EMINES chatbot client (static/script.js)

A shallow embedding of the browser-side chat client: the Markdown formatter
(`formatMarkdown`), the event-stream reader (`streamChatResponse`), the send
handler (`sendMessage`) and the transcription step (`transcribeAudio`).

JavaScript strings are modelled as lists of characters. The page is an explicit
state (`Page`) passed through the handlers; a JavaScript exception is an
explicit second component of a handler's result.
-/

namespace EminesChat

/-- JavaScript text, as the list of its characters. -/
abbrev Str := List Char

/-! ## Regular-expression helpers used by `formatMarkdown` -/

/-- The characters the regex atom `.` (without the `s` flag) refuses, and at
which `^` and `$` anchor under the `m` flag: LF, CR, U+2028, U+2029. -/
def isLineTerminator (c : Char) : Bool :=
  c == '\n' || c == '\r' || c == Char.ofNat 0x2028 || c == Char.ofNat 0x2029

/-- The lazy group `(.*?)` followed by the closing delimiter `d`: the shortest
run of non-terminator characters after which `d` follows. Returns the captured
run and the text after the closing delimiter; `none` when the match fails. -/
def lazyUntil (d : Str) : Str → Option (Str × Str)
  | [] => if d.isPrefixOf [] then some ([], []) else none
  | x :: t =>
    if d.isPrefixOf (x :: t) then some ([], (x :: t).drop d.length)
    else if isLineTerminator x then none
    else match lazyUntil d t with
      | some (cap, rest) => some (x :: cap, rest)
      | none => none

/-- The loop of `text.replace(/D(.*?)D/g, o + '$1' + c)` for a literal
delimiter `D = d`: at each position try the match; on success emit
`o ++ capture ++ c` and go on after the match, otherwise copy one character.
The first argument bounds the number of iterations. -/
def replaceDelimitedAux (d o c : Str) : Nat → Str → Str
  | 0, s => s
  | _ + 1, [] => []
  | fuel + 1, x :: t =>
    if d.isPrefixOf (x :: t) then
      match lazyUntil d ((x :: t).drop d.length) with
      | some (cap, rest) => o ++ cap ++ c ++ replaceDelimitedAux d o c fuel rest
      | none => x :: replaceDelimitedAux d o c fuel t
    else x :: replaceDelimitedAux d o c fuel t

/-- The call `text.replace(/D(.*?)D/g, o + '$1' + c)`. Every iteration consumes
at least one character, so the length of the text is enough fuel. -/
def replaceDelimited (d o c : Str) (s : Str) : Str :=
  replaceDelimitedAux d o c s.length s

/-- Whether `/[\-\*] (.+)$/m` matches at the head of the text: a dash or a star,
a space, and at least one character that is not a line terminator. -/
def bulletAt : Str → Bool
  | x :: ' ' :: z :: _ => (x == '-' || x == '*') && !isLineTerminator z
  | _ => false

/-- The call `text.replace(/^[\-\*] (.+)$/gm, '• $1')`. The flag says whether
the current position is the start of a line (start of text, or just after a
line terminator); a match replaces the dash or star by the bullet glyph and
keeps the rest of the line. -/
def replaceBullets : Bool → Str → Str
  | _, [] => []
  | atStart, x :: t =>
    if atStart && bulletAt (x :: t) then '•' :: replaceBullets false t
    else x :: replaceBullets (isLineTerminator x) t

/-- The call `text.replace(/\n/g, '<br>')`. -/
def replaceNewlines : Str → Str
  | [] => []
  | x :: t =>
    if x = '\n' then "<br>".toList ++ replaceNewlines t
    else x :: replaceNewlines t

/-- Source: `formatMarkdown(text)`, script.js lines 50-66. -/
def formatMarkdown (text : Str) : Str :=
  let text := replaceDelimited "**".toList "<strong>".toList "</strong>".toList text
  let text := replaceDelimited "__".toList "<strong>".toList "</strong>".toList text
  let text := replaceDelimited "*".toList "<em>".toList "</em>".toList text
  let text := replaceDelimited "_".toList "<em>".toList "</em>".toList text
  let text := replaceBullets true text
  replaceNewlines text

/-! ## String built-ins -/

/-- The characters `String.prototype.trim` strips: WhiteSpace and
LineTerminator of the language specification. -/
def isTrimSpace (c : Char) : Bool :=
  let n := c.toNat
  n == 0x09 || n == 0x0A || n == 0x0B || n == 0x0C || n == 0x0D || n == 0x20
    || n == 0xA0 || n == 0x1680 || (0x2000 ≤ n && n ≤ 0x200A)
    || n == 0x2028 || n == 0x2029 || n == 0x202F || n == 0x205F
    || n == 0x3000 || n == 0xFEFF

/-- The built-in `s.trim()`. -/
def trim (s : Str) : Str :=
  ((s.dropWhile isTrimSpace).reverse.dropWhile isTrimSpace).reverse

/-- The built-in `s.split(sep)` for a one-character separator. -/
def split (sep : Char) : Str → List Str
  | [] => [[]]
  | x :: t =>
    if x = sep then [] :: split sep t
    else match split sep t with
      | [] => [[x]]
      | l :: ls => (x :: l) :: ls

/-! ## JavaScript values produced by `JSON.parse` -/

/-- A Number as far as this program observes it: whether it is falsy (zero;
JSON never yields NaN) and the text that string concatenation gives for it. -/
structure JSNumber where
  isZero : Bool
  text : Str
deriving DecidableEq, Repr

/-- The values `JSON.parse` can return, and `undefined` for a property that is
not there. An object lists its members in source order. -/
inductive JSValue where
  | undefined
  | null
  | bool (b : Bool)
  | number (n : JSNumber)
  | string (s : Str)
  | array (items : List JSValue)
  | object (fields : List (Str × JSValue))
deriving Repr

/-- The abstract operation ToBoolean, as used by `if (v)` and `a || b`. -/
def truthy : JSValue → Bool
  | .undefined => false
  | .null => false
  | .bool b => b
  | .number n => !n.isZero
  | .string s => !s.isEmpty
  | .array _ => true
  | .object _ => true

/-- The member of a parsed object with the given key; when a key occurs more
than once the last occurrence wins. -/
def lookupLast (key : Str) : List (Str × JSValue) → Option JSValue
  | [] => none
  | (k, v) :: rest =>
    match lookupLast key rest with
    | some w => some w
    | none => if k = key then some v else none

/-- Property read `v.key` for the keys this program reads (`text`, `error`,
`corrected`, `raw`), none of which exists on a built-in prototype. `none` is the
TypeError thrown when `v` is `null` or `undefined`. -/
def getProp (v : JSValue) (key : Str) : Option JSValue :=
  match v with
  | .undefined => none
  | .null => none
  | .object fields => some ((lookupLast key fields).getD .undefined)
  | _ => some .undefined

mutual
/-- The text a value contributes to `str += v` and to `input.value = v`
(ToString of ToPrimitive). `none` is the TypeError thrown for an object whose
own `toString` member hides the built-in one. -/
def toStr : JSValue → Option Str
  | .undefined => some "undefined".toList
  | .null => some "null".toList
  | .bool b => some (if b then "true".toList else "false".toList)
  | .number n => some n.text
  | .string s => some s
  | .array items => joinItems items
  | .object fields =>
    if (lookupLast "toString".toList fields).isSome then none
    else some "[object Object]".toList
/-- The built-in `Array.prototype.join` with the default separator. -/
def joinItems : List JSValue → Option Str
  | [] => some []
  | [v] => itemStr v
  | v :: w :: rest =>
    match itemStr v, joinItems (w :: rest) with
    | some a, some b => some (a ++ ',' :: b)
    | _, _ => none
/-- One element inside `join`: `null` and `undefined` give the empty text. -/
def itemStr : JSValue → Option Str
  | .undefined => some []
  | .null => some []
  | .bool b => some (if b then "true".toList else "false".toList)
  | .number n => some n.text
  | .string s => some s
  | .array items => joinItems items
  | .object fields =>
    if (lookupLast "toString".toList fields).isSome then none
    else some "[object Object]".toList
end

/-- The operator `a || b`. -/
def jsOr (a b : JSValue) : JSValue :=
  if truthy a then a else b

/-- The browser built-ins the client calls. `jsonParse` is `JSON.parse`
(`none`: SyntaxError thrown); `decode` is `TextDecoder.prototype.decode` called
with one argument, so no decoder state survives from one call to the next. -/
structure Platform where
  jsonParse : Str → Option JSValue
  decode : List Nat → Str

/-! ## A reference platform

The theorems below hold for every `Platform`. To evaluate the client on
concrete streams a reference platform is given: a JSON reader for the grammar
of ECMA-404 and the UTF-8 decoder of the Encoding standard. Two parts of the
real built-ins are not covered, and the reference reader answers `none` there:
numbers that are not integers of magnitude below 2^53 written without fraction
or exponent (their text needs floating-point formatting), and `\u` escapes that
name a surrogate code unit (not a character here). -/

/-- JSON insignificant whitespace. -/
def isJsonSpace (c : Char) : Bool :=
  c == ' ' || c == '\t' || c == '\n' || c == '\r'

/-- Drop leading JSON whitespace. -/
def skipSpace : Str → Str
  | [] => []
  | c :: t => if isJsonSpace c then skipSpace t else c :: t

/-- The value of a hexadecimal digit. -/
def hexDigit (c : Char) : Option Nat :=
  if '0' ≤ c ∧ c ≤ '9' then some (c.toNat - '0'.toNat)
  else if 'a' ≤ c ∧ c ≤ 'f' then some (c.toNat - 'a'.toNat + 10)
  else if 'A' ≤ c ∧ c ≤ 'F' then some (c.toNat - 'A'.toNat + 10)
  else none

/-- The code unit named by four hexadecimal digits. -/
def hex4 (a b c d : Char) : Option Nat :=
  match hexDigit a, hexDigit b, hexDigit c, hexDigit d with
  | some w, some x, some y, some z => some (((w * 16 + x) * 16 + y) * 16 + z)
  | _, _, _, _ => none

/-- The character named by a two-character escape of a JSON string. -/
def simpleEscape (e : Char) : Option Char :=
  if e = '"' then some '"'
  else if e = '\\' then some '\\'
  else if e = '/' then some '/'
  else if e = 'b' then some (Char.ofNat 8)
  else if e = 'f' then some (Char.ofNat 12)
  else if e = 'n' then some '\n'
  else if e = 'r' then some '\r'
  else if e = 't' then some '\t'
  else none

/-- A JSON string after its opening quote: the characters it denotes and the
text after its closing quote. -/
def parseStringBody : Str → Option (Str × Str)
  | [] => none
  | '"' :: rest => some ([], rest)
  | '\\' :: 'u' :: a :: b :: c :: d :: rest =>
    match hex4 a b c d with
    | some n =>
      if 0xD800 ≤ n ∧ n ≤ 0xDFFF then none
      else match parseStringBody rest with
        | some (s, r) => some (Char.ofNat n :: s, r)
        | none => none
    | none => none
  | '\\' :: e :: rest =>
    match simpleEscape e with
    | some ch =>
      match parseStringBody rest with
      | some (s, r) => some (ch :: s, r)
      | none => none
    | none => none
  | ch :: rest =>
    if ch.toNat < 0x20 ∨ ch = '\\' then none
    else match parseStringBody rest with
      | some (s, r) => some (ch :: s, r)
      | none => none

/-- The leading decimal digits of a text, and what follows them. -/
def takeDigits : Str → Str × Str
  | [] => ([], [])
  | c :: t =>
    if c.isDigit then
      let r := takeDigits t
      (c :: r.1, r.2)
    else ([], c :: t)

/-- The number written by a run of decimal digits. -/
def digitsValue (ds : Str) : Nat :=
  ds.foldl (fun acc c => acc * 10 + (c.toNat - '0'.toNat)) 0

/-- A JSON number, for the integers the reference reader covers. -/
def parseNumber (s : Str) : Option (JSNumber × Str) :=
  let neg := s.head? = some '-'
  let body := if neg then s.drop 1 else s
  let r := takeDigits body
  let ds := r.1
  let rest := r.2
  if ds = [] then none
  else if ds.head? = some '0' ∧ ds.length ≠ 1 then none
  else if rest.head? = some '.' ∨ rest.head? = some 'e' ∨ rest.head? = some 'E' then none
  else
    let n := digitsValue ds
    if 2 ^ 53 ≤ n then none
    else if n = 0 then some (⟨true, ['0']⟩, rest)
    else some (⟨false, if neg then '-' :: ds else ds⟩, rest)

mutual
/-- A JSON value with leading whitespace, and the text after it. -/
def parseValue : Nat → Str → Option (JSValue × Str)
  | 0, _ => none
  | fuel + 1, s =>
    match skipSpace s with
    | [] => none
    | '{' :: rest =>
      match skipSpace rest with
      | '}' :: rest2 => some (.object [], rest2)
      | body => parseMembers fuel body
    | '[' :: rest =>
      match skipSpace rest with
      | ']' :: rest2 => some (.array [], rest2)
      | body => parseElements fuel body
    | '"' :: rest =>
      match parseStringBody rest with
      | some (str, rest2) => some (.string str, rest2)
      | none => none
    | c :: rest =>
      if "true".toList.isPrefixOf (c :: rest) then some (.bool true, (c :: rest).drop 4)
      else if "false".toList.isPrefixOf (c :: rest) then some (.bool false, (c :: rest).drop 5)
      else if "null".toList.isPrefixOf (c :: rest) then some (.null, (c :: rest).drop 4)
      else match parseNumber (c :: rest) with
        | some (n, rest2) => some (.number n, rest2)
        | none => none
/-- The members of a non-empty JSON object up to its closing brace. -/
def parseMembers : Nat → Str → Option (JSValue × Str)
  | 0, _ => none
  | fuel + 1, s =>
    match skipSpace s with
    | '"' :: rest =>
      match parseStringBody rest with
      | some (key, rest2) =>
        match skipSpace rest2 with
        | ':' :: rest3 =>
          match parseValue fuel rest3 with
          | some (v, rest4) =>
            match skipSpace rest4 with
            | '}' :: rest5 => some (.object [(key, v)], rest5)
            | ',' :: rest5 =>
              match parseMembers fuel rest5 with
              | some (.object more, rest6) => some (.object ((key, v) :: more), rest6)
              | _ => none
            | _ => none
          | none => none
        | _ => none
      | none => none
    | _ => none
/-- The elements of a non-empty JSON array up to its closing bracket. -/
def parseElements : Nat → Str → Option (JSValue × Str)
  | 0, _ => none
  | fuel + 1, s =>
    match parseValue fuel s with
    | some (v, rest) =>
      match skipSpace rest with
      | ']' :: rest2 => some (.array [v], rest2)
      | ',' :: rest2 =>
        match parseElements fuel rest2 with
        | some (.array more, rest3) => some (.array (v :: more), rest3)
        | _ => none
      | _ => none
    | none => none
end

/-- The reference `JSON.parse`: one value, surrounded by optional whitespace.
Every recursive call follows at least one consumed character, so twice the
length of the text bounds the nesting. -/
def parseJSON (s : Str) : Option JSValue :=
  match parseValue (2 * s.length + 2) s with
  | some (v, rest) => if skipSpace rest = [] then some v else none
  | none => none

/-- The replacement character U+FFFD. -/
def replacementChar : Char := Char.ofNat 0xFFFD

/-- A multi-byte sequence in progress: the code point so far, the number of
continuation bytes still needed, and the range allowed for the next byte. -/
structure Utf8Pending where
  codePoint : Nat
  needed : Nat
  lower : Nat
  upper : Nat

/-- The UTF-8 decoder's handler for a byte when no sequence is in progress:
the character emitted, if any, and the sequence started, if any. -/
def utf8Fresh (b : Nat) : Option Char × Option Utf8Pending :=
  if b ≤ 0x7F then (some (Char.ofNat b), none)
  else if 0xC2 ≤ b ∧ b ≤ 0xDF then (none, some ⟨b % 32, 1, 0x80, 0xBF⟩)
  else if 0xE0 ≤ b ∧ b ≤ 0xEF then
    (none, some ⟨b % 16, 2, if b = 0xE0 then 0xA0 else 0x80, if b = 0xED then 0x9F else 0xBF⟩)
  else if 0xF0 ≤ b ∧ b ≤ 0xF4 then
    (none, some ⟨b % 8, 3, if b = 0xF0 then 0x90 else 0x80, if b = 0xF4 then 0x8F else 0xBF⟩)
  else (some replacementChar, none)

/-- The UTF-8 decoder run over the bytes of one call. A byte outside the
allowed range ends the sequence in progress with U+FFFD and is then handled
afresh; a sequence still in progress at the end of the bytes gives U+FFFD. -/
def utf8Run : Option Utf8Pending → List Nat → Str
  | none, [] => []
  | some _, [] => [replacementChar]
  | none, b :: rest =>
    match utf8Fresh b with
    | (some ch, st) => ch :: utf8Run st rest
    | (none, st) => utf8Run st rest
  | some p, b :: rest =>
    if p.lower ≤ b ∧ b ≤ p.upper then
      let cp := p.codePoint * 64 + b % 64
      if p.needed = 1 then Char.ofNat cp :: utf8Run none rest
      else utf8Run (some ⟨cp, p.needed - 1, 0x80, 0xBF⟩) rest
    else
      match utf8Fresh b with
      | (some ch, st) => replacementChar :: ch :: utf8Run st rest
      | (none, st) => replacementChar :: utf8Run st rest

/-- The reference `new TextDecoder().decode(bytes)`: UTF-8 with replacement,
a leading byte order mark dropped. -/
def utf8Decode (bytes : List Nat) : Str :=
  match utf8Run none bytes with
  | c :: t => if c = Char.ofNat 0xFEFF then t else c :: t
  | [] => []

/-- The UTF-8 bytes of a character (the encoder, used to write test streams). -/
def utf8Bytes (c : Char) : List Nat :=
  let n := c.toNat
  if n < 0x80 then [n]
  else if n < 0x800 then [0xC0 + n / 64, 0x80 + n % 64]
  else if n < 0x10000 then [0xE0 + n / 4096, 0x80 + n / 64 % 64, 0x80 + n % 64]
  else [0xF0 + n / 262144, 0x80 + n / 4096 % 64, 0x80 + n / 64 % 64, 0x80 + n % 64]

/-- The UTF-8 bytes of a text. -/
def utf8Encode (s : Str) : List Nat :=
  s.flatMap utf8Bytes

/-- The reference platform. -/
def browser : Platform :=
  { jsonParse := parseJSON, decode := utf8Decode }

/-! ## The page -/

/-- Who a message bubble belongs to. -/
inductive Sender where
  | user
  | bot
deriving DecidableEq, Repr

/-- A child of the `#chat-messages` element: a message bubble (with the markup
assigned to the `innerHTML` of its `.message-text`), or a typing indicator with
its element id. -/
inductive Node where
  | message (sender : Sender) (html : Str)
  | typing (id : Str)
deriving DecidableEq, Repr

/-- A request issued with `fetch`. -/
inductive Request where
  | chat (message : Str)
  | transcribe (filename : Str)
deriving DecidableEq, Repr

/-- The state of the page that the handlers read and write. The last two
fields record what the handlers did: the requests issued, and the elements
taken out of the document with `element.remove()`. -/
structure Page where
  chatMessages : List Node
  chatActive : Bool
  welcomeHidden : Bool
  inputValue : Str
  inputPlaceholder : Str
  inputDisabled : Bool
  inputFocused : Bool
  currentTranscription : JSValue
  alerts : List Str
  requests : List Request
  removed : List Node

/-- The result of running a handler: the page it leaves, and the exception it
throws to its caller, if any. -/
abbrev Outcome := Page × Option Str

/-- Source: `addMessage(text, sender)`, script.js lines 153-184. -/
def addMessage (text : Str) (sender : Sender) (p : Page) : Page :=
  let html := if sender = Sender.bot then formatMarkdown text else text
  { p with chatMessages := p.chatMessages ++ [Node.message sender html] }

/-- Source: `showTypingIndicator()`, script.js lines 187-217. The argument is
the value of `Date.now()`. Returns the id together with the page. -/
def showTypingIndicator (now : Nat) (p : Page) : Str × Page :=
  let typingId := "typing-".toList ++ Nat.toDigits 10 now
  (typingId, { p with chatMessages := p.chatMessages ++ [Node.typing typingId] })

/-- Source: `removeTypingIndicator(typingId)`, script.js lines 220-225:
`getElementById` finds the first element with the id, and it is removed if
there is one. Only typing indicators carry such an id. -/
def removeTypingIndicator (typingId : Str) (p : Page) : Page :=
  if Node.typing typingId ∈ p.chatMessages then
    { p with chatMessages := p.chatMessages.erase (Node.typing typingId),
             removed := p.removed ++ [Node.typing typingId] }
  else p

/-- Source: `hideWelcomeScreen()`, script.js lines 228-236. -/
def hideWelcomeScreen (p : Page) : Page :=
  if p.welcomeHidden then p
  else { p with welcomeHidden := true, chatActive := true }

/-! ## Streaming a chat response -/

/-- The server's answer to the chat request: whether the status is OK, the
byte chunks `reader.read()` delivers in order, and whether the read after the
last chunk rejects instead of signalling completion. -/
structure ChatResponse where
  ok : Bool
  chunks : List (List Nat)
  readFails : Bool

/-- The outcome of `fetch('/api/chat', ...)`. -/
inductive ChatReply where
  | rejected
  | response (r : ChatResponse)

/-- The state of the read loop: `fullText`, and the markup last assigned to the
bubble's `innerHTML` (empty while nothing was assigned). -/
structure StreamState where
  fullText : Str
  html : Str
deriving DecidableEq, Repr

/-- The body of `for (const line of lines)`, script.js lines 121-138. -/
def processLine (env : Platform) (st : StreamState) (line : Str) : StreamState :=
  if "data: ".toList.isPrefixOf line then
    let data := trim (line.drop 6)
    if data = "[DONE]".toList then st
    else
      match env.jsonParse data with
      | none => st
      | some parsed =>
        match getProp parsed "text".toList with
        | none => st
        | some v =>
          if truthy v then
            match toStr v with
            | none => st
            | some piece =>
              let fullText := st.fullText ++ piece
              { fullText := fullText, html := formatMarkdown fullText }
          else st
  else st

/-- One turn of the `while` loop after a chunk arrived, lines 117-139. -/
def processChunk (env : Platform) (st : StreamState) (value : List Nat) : StreamState :=
  let chunk := env.decode value
  let lines := split '\n' chunk
  lines.foldl (processLine env) st

/-- The `while (true)` loop of script.js lines 112-140 run over the chunks that
arrive before the reader signals completion. -/
def readLoop (env : Platform) (chunks : List (List Nat)) (st : StreamState) : StreamState :=
  chunks.foldl (processChunk env) st

/-- The text `streamChatResponse` has accumulated in `fullText` when the reader
signals completion. -/
def streamedText (env : Platform) (chunks : List (List Nat)) : Str :=
  (readLoop env chunks ⟨[], []⟩).fullText

/-- The markup the streamed bubble shows when the reader signals completion. -/
def streamedHtml (env : Platform) (chunks : List (List Nat)) : Str :=
  (readLoop env chunks ⟨[], []⟩).html

/-- The apology `streamChatResponse` shows on failure. -/
def streamApology : Str :=
  "Désolé, une erreur s'est produite lors de la communication avec le serveur.".toList

/-- The apology `sendMessage` shows on failure. -/
def sendApology : Str :=
  "Désolé, une erreur s'est produite. Veuillez réessayer.".toList

/-- The `try` block of `streamChatResponse`, script.js lines 73-143. -/
def streamChatResponseTry (env : Platform) (message typingId : Str) (reply : ChatReply)
    (p : Page) : Outcome :=
  let p := { p with requests := p.requests ++ [Request.chat message] }
  match reply with
  | .rejected => (p, some "Failed to fetch".toList)
  | .response r =>
    if !r.ok then (p, some "Network response was not ok".toList)
    else
      let p := removeTypingIndicator typingId p
      let bubble := p.chatMessages.length
      let p := { p with chatMessages := p.chatMessages ++ [Node.message Sender.bot []] }
      let st := readLoop env r.chunks ⟨[], []⟩
      let p := { p with chatMessages := p.chatMessages.set bubble (Node.message Sender.bot st.html) }
      if r.readFails then (p, some "The stream could not be read".toList)
      else (p, none)

/-- Source: `streamChatResponse(message, typingId)`, script.js lines 69-150. -/
def streamChatResponse (env : Platform) (message typingId : Str) (reply : ChatReply)
    (p : Page) : Outcome :=
  match streamChatResponseTry env message typingId reply p with
  | (p, none) => (p, none)
  | (p, some _) => (addMessage streamApology Sender.bot (removeTypingIndicator typingId p), none)

/-- Source: `sendMessage()`, script.js lines 21-47. -/
def sendMessage (env : Platform) (now : Nat) (reply : ChatReply) (p : Page) : Outcome :=
  let message := trim p.inputValue
  if message = [] then (p, none)
  else
    let p := hideWelcomeScreen p
    let p := { p with inputValue := [] }
    let p := addMessage message Sender.user p
    let shown := showTypingIndicator now p
    match streamChatResponse env message shown.1 reply shown.2 with
    | (p, none) => (p, none)
    | (p, some _) => (addMessage sendApology Sender.bot (removeTypingIndicator shown.1 p), none)

/-! ## Transcription -/

/-- The server's answer to the transcription upload: status and body text. -/
structure TranscribeResponse where
  ok : Bool
  body : Str

/-- The outcome of `fetch('/api/transcribe', ...)`. -/
inductive TranscribeReply where
  | rejected
  | response (r : TranscribeResponse)

/-- The placeholder shown while the upload is in flight. -/
def transcribingPlaceholder : Str :=
  "🎤 Transcription en cours...".toList

/-- The text of the alert on failure. -/
def transcribeAlert : Str :=
  "Erreur lors de la transcription. Veuillez réessayer.".toList

/-- The built-in `s.includes(sub)`. -/
def includes (sub : Str) : Str → Bool
  | [] => sub.isPrefixOf []
  | x :: t => sub.isPrefixOf (x :: t) || includes sub t

/-- The file extension chosen from the blob type, script.js lines 421-423. -/
def extensionOf (blobType : Str) : Str :=
  if includes "webm".toList blobType then "webm".toList
  else if includes "ogg".toList blobType then "ogg".toList
  else if includes "mp4".toList blobType then "mp4".toList
  else "wav".toList

/-- The `try` block of `transcribeAudio`, script.js lines 419-458. -/
def transcribeAudioTry (env : Platform) (blobType originalPlaceholder : Str)
    (reply : TranscribeReply) (p : Page) : Outcome :=
  let filename := "recording.".toList ++ extensionOf blobType
  let p := { p with requests := p.requests ++ [Request.transcribe filename] }
  match reply with
  | .rejected => (p, some "Failed to fetch".toList)
  | .response r =>
    if !r.ok then
      match env.jsonParse r.body with
      | none => (p, some "The body is not JSON".toList)
      | some errorData =>
        match getProp errorData "error".toList with
        | none => (p, some "TypeError".toList)
        | some e =>
          match toStr (jsOr e (JSValue.string "Transcription failed".toList)) with
          | none => (p, some "TypeError".toList)
          | some msg => (p, some msg)
    else
      match env.jsonParse r.body with
      | none => (p, some "The body is not JSON".toList)
      | some data =>
        match getProp data "corrected".toList, getProp data "raw".toList with
        | some corrected, some raw =>
          if truthy corrected || truthy raw then
            let chosen := jsOr corrected raw
            let p := { p with currentTranscription := chosen }
            match toStr chosen with
            | none => (p, some "TypeError".toList)
            | some value =>
              ({ p with inputValue := value, inputPlaceholder := originalPlaceholder,
                        inputDisabled := false, inputFocused := true }, none)
          else (p, some "No transcription data received".toList)
        | _, _ => (p, some "TypeError".toList)

/-- Source: `transcribeAudio(audioBlob)`, script.js lines 410-468. The blob is
given by its type. -/
def transcribeAudio (env : Platform) (blobType : Str) (reply : TranscribeReply)
    (p : Page) : Outcome :=
  let originalPlaceholder := p.inputPlaceholder
  let p := { p with inputPlaceholder := transcribingPlaceholder, inputDisabled := true }
  match transcribeAudioTry env blobType originalPlaceholder reply p with
  | (p, none) => (p, none)
  | (p, some _) =>
    ({ p with inputPlaceholder := originalPlaceholder, inputDisabled := false,
              alerts := p.alerts ++ [transcribeAlert] }, none)

/-- A recording session as the stop callback sees it: the MIME type selected
by `startRecording` (empty for the platform default) and the number of tracks
of the audio source that are still live. -/
structure Session where
  mimeType : Str
  liveTracks : Nat

/-- Source: the `mediaRecorder.onstop` callback, script.js lines 349-360: build
the blob, await `transcribeAudio`, then stop every track. The tracks are
stopped only if `transcribeAudio` returns without throwing. -/
def onstop (env : Platform) (reply : TranscribeReply) (s : Session) (p : Page) :
    Session × Outcome :=
  let blobType := if s.mimeType = [] then "audio/webm".toList else s.mimeType
  match transcribeAudio env blobType reply p with
  | (p, none) => ({ s with liveTracks := 0 }, (p, none))
  | (p, some e) => (s, (p, some e))

/-! ## Predicates used in the statements -/

/-- Text without `*`, `_` and line terminators. -/
def Plain (s : Str) : Prop :=
  '*' ∉ s ∧ '_' ∉ s ∧ ∀ ch ∈ s, isLineTerminator ch = false

/-- Every newline replaced by the break tag, all other characters kept. -/
def newlinesToBreaks (s : Str) : Str :=
  s.flatMap (fun ch => if ch = '\n' then "<br>".toList else [ch])

/-- The tags the formatter writes. -/
def allowedTags : List Str :=
  ["<strong>".toList, "</strong>".toList, "<em>".toList, "</em>".toList, "<br>".toList]

/-- Every `<` of the text begins one of the allowed tags. -/
def onlyAllowedTags : Str → Bool
  | [] => true
  | x :: t => (x != '<' || allowedTags.any (fun tag => tag.isPrefixOf (x :: t))) && onlyAllowedTags t

/-- A text made of characters other than `<` and of allowed tags. -/
inductive TagSafe : Str → Prop where
  | nil : TagSafe []
  | char (x : Char) (s : Str) : x ≠ '<' → TagSafe s → TagSafe (x :: s)
  | tag (tag s : Str) : tag ∈ allowedTags → TagSafe s → TagSafe (tag ++ s)

/-- The characters that occur in allowed tags. -/
def isTagChar (c : Char) : Bool :=
  allowedTags.any (fun tag => tag.contains c)

/-- The lines the read loop sees: each decoded chunk split on the newline, in
arrival order. -/
def streamLines (env : Platform) (chunks : List (List Nat)) : List Str :=
  chunks.flatMap (fun value => split '\n' (env.decode value))

/-- The fragment an event line delivers: the line starts with `data: `, its
trimmed payload is not `[DONE]` and parses as JSON, and the `text` member of the
parsed value is truthy and has a string form; the fragment is that string. -/
def eventFragment (env : Platform) (line : Str) : Option Str :=
  if "data: ".toList.isPrefixOf line = true ∧ trim (line.drop 6) ≠ "[DONE]".toList then
    match env.jsonParse (trim (line.drop 6)) with
    | some parsed =>
      match getProp parsed "text".toList with
      | some v => if truthy v = true then toStr v else none
      | none => none
    | none => none
  else none

/-- The fragment the claim as written assigns to a line: the line starts with
`data: `, its trimmed payload is not `[DONE]` and parses as a JSON object with
a `text` member; the fragment is the text of that member, whatever its value. -/
def claimedFragment (env : Platform) (line : Str) : Option Str :=
  if "data: ".toList.isPrefixOf line = true ∧ trim (line.drop 6) ≠ "[DONE]".toList then
    match env.jsonParse (trim (line.drop 6)) with
    | some (JSValue.object fields) =>
      match lookupLast "text".toList fields with
      | some v => some ((toStr v).getD [])
      | none => none
    | _ => none
  else none

/-- The text the claim as written expects in `fullText` at completion. -/
def claimedText (env : Platform) (chunks : List (List Nat)) : Str :=
  ((streamLines env chunks).filterMap (claimedFragment env)).flatten

/-- The id `showTypingIndicator` gives the indicator when `Date.now()` is `now`. -/
def typingIdAt (now : Nat) : Str :=
  "typing-".toList ++ Nat.toDigits 10 now

/-- A page as loaded: no messages, welcome screen shown, the given input value
and placeholder, nothing requested or removed yet. -/
def pageWith (value placeholder : Str) : Page :=
  { chatMessages := [], chatActive := false, welcomeHidden := false,
    inputValue := value, inputPlaceholder := placeholder, inputDisabled := false,
    inputFocused := false, currentTranscription := JSValue.string [], alerts := [],
    requests := [], removed := [] }

/-- The bot bubbles a send leaves after the user turn: the apology when the
request fails, otherwise the streamed bubble with the formatted accumulated text,
followed by the apology when the stream breaks off. -/
def botTurns (env : Platform) (reply : ChatReply) : List Node :=
  match reply with
  | .rejected => [Node.message Sender.bot streamApology]
  | .response r =>
    if r.ok then
      Node.message Sender.bot (formatMarkdown (streamedText env r.chunks))
        :: (if r.readFails then [Node.message Sender.bot streamApology] else [])
    else [Node.message Sender.bot streamApology]

/-- The member `key` of the response body as `data.key` reads it; `undefined`
when the body does not parse, parses to `null`, or has no such member. -/
def bodyMember (env : Platform) (body key : Str) : JSValue :=
  match env.jsonParse body with
  | some data => (getProp data key).getD JSValue.undefined
  | none => JSValue.undefined

/-! ## Theorems

### The regular-expression passes -/

theorem lazyUntil_eq {d : Str} : ∀ {s cap rest : Str}, lazyUntil d s = some (cap, rest) →
    s = cap ++ d ++ rest := by
  intro s
  induction s with
  | nil =>
    intro cap rest h
    simp only [lazyUntil] at h
    split at h
    · rename_i hp
      simp at h
      obtain ⟨rfl, rfl⟩ := h
      have : d = [] := by simpa using hp
      simp [this]
    · simp at h
  | cons x t ih =>
    intro cap rest h
    simp only [lazyUntil] at h
    split at h
    · rename_i hp
      simp only [Option.some.injEq, Prod.mk.injEq] at h
      obtain ⟨rfl, rfl⟩ := h
      rw [List.isPrefixOf_iff_prefix] at hp
      obtain ⟨u, hu⟩ := hp
      rw [← hu]
      simp
    · split at h
      · simp at h
      · cases hl : lazyUntil d t with
        | none => simp [hl] at h
        | some pr =>
          obtain ⟨cap', rest'⟩ := pr
          simp only [hl, Option.some.injEq, Prod.mk.injEq] at h
          obtain ⟨rfl, rfl⟩ := h
          have := ih hl
          simp [this]

theorem replaceDelimitedAux_fuel (d o c : Str) : ∀ (fuel : Nat) (s : Str), d ≠ [] →
    s.length ≤ fuel → replaceDelimitedAux d o c fuel s = replaceDelimitedAux d o c s.length s := by
  intro fuel
  induction fuel using Nat.strong_induction_on with
  | _ fuel ih =>
    intro s hd hlen
    cases s with
    | nil => cases fuel <;> simp [replaceDelimitedAux]
    | cons x t =>
      cases fuel with
      | zero => simp at hlen
      | succ f =>
        have hlt : t.length ≤ f := by simpa using hlen
        simp only [replaceDelimitedAux, List.length_cons]
        have hskip : replaceDelimitedAux d o c f t = replaceDelimitedAux d o c t.length t :=
          ih f (Nat.lt_succ_self f) t hd hlt
        split
        · rename_i hp
          cases hl : lazyUntil d (List.drop d.length (x :: t)) with
          | none => simp only [hskip]
          | some pr =>
            obtain ⟨cap, rest⟩ := pr
            simp only
            have hrest := lazyUntil_eq hl
            have hdl : 0 < d.length := List.length_pos.mpr hd
            have h1 : (List.drop d.length (x :: t)).length ≤ t.length := by
              simp only [List.length_drop, List.length_cons]; omega
            have h2 : rest.length ≤ t.length := by
              have : (List.drop d.length (x :: t)).length = (cap ++ d ++ rest).length := by rw [← hrest]
              simp only [List.length_append] at this
              omega
            rw [ih f (Nat.lt_succ_self f) rest hd (le_trans h2 hlt)]
            by_cases hteq : t.length = f
            · subst hteq; rw [ih t.length (Nat.lt_succ_self _) rest hd h2]
            · rw [ih t.length (by omega) rest hd h2]
        · simp only [hskip]

theorem replaceDelimited_nil (d o c : Str) : replaceDelimited d o c [] = [] := rfl

theorem isPrefixOf_cons_ne {y x : Char} (d t : Str) (h : y ≠ x) :
    (y :: d).isPrefixOf (x :: t) = false := by
  simp [List.isPrefixOf, h]

theorem replaceDelimited_cons_skip (d o c : Str) (x : Char) (t : Str)
    (h : d.isPrefixOf (x :: t) = false) :
    replaceDelimited d o c (x :: t) = x :: replaceDelimited d o c t := by
  simp [replaceDelimited, replaceDelimitedAux, h]

theorem replaceDelimited_cons_none (d o c : Str) (x : Char) (t : Str)
    (h : lazyUntil d ((x :: t).drop d.length) = none) :
    replaceDelimited d o c (x :: t) = x :: replaceDelimited d o c t := by
  simp only [replaceDelimited, replaceDelimitedAux, List.length_cons, h]
  split <;> rfl

theorem replaceDelimited_cons_some (d o c : Str) (hd : d ≠ []) (x : Char) (t cap rest : Str)
    (hp : d.isPrefixOf (x :: t) = true)
    (h : lazyUntil d ((x :: t).drop d.length) = some (cap, rest)) :
    replaceDelimited d o c (x :: t) = o ++ cap ++ c ++ replaceDelimited d o c rest := by
  simp only [replaceDelimited, replaceDelimitedAux, List.length_cons, h, hp, if_true]
  have hrest := lazyUntil_eq h
  have hdl : 0 < d.length := List.length_pos.mpr hd
  have h2 : rest.length ≤ t.length := by
    have : (List.drop d.length (x :: t)).length = (cap ++ d ++ rest).length := by rw [← hrest]
    simp only [List.length_append, List.length_drop, List.length_cons] at this
    omega
  rw [replaceDelimitedAux_fuel d o c t.length rest hd h2]

/-- Characters that cannot start the delimiter are copied. -/
theorem replaceDelimited_copy (y : Char) (d o c : Str) (w s : Str) (h : y ∉ w) :
    replaceDelimited (y :: d) o c (w ++ s) = w ++ replaceDelimited (y :: d) o c s := by
  induction w with
  | nil => rfl
  | cons x t ih =>
    have hx : y ≠ x := fun e => h (by simp [e])
    have ht : y ∉ t := fun e => h (by simp [e])
    rw [List.cons_append, replaceDelimited_cons_skip _ _ _ _ _ (isPrefixOf_cons_ne d _ hx), ih ht]
    rfl

theorem replaceDelimited_id (y : Char) (d o c : Str) (w : Str) (h : y ∉ w) :
    replaceDelimited (y :: d) o c w = w := by
  have := replaceDelimited_copy y d o c w [] h
  simpa [replaceDelimited_nil] using this

theorem lazyUntil_self (y : Char) (d rest : Str) :
    lazyUntil (y :: d) ((y :: d) ++ rest) = some ([], rest) := by
  simp [lazyUntil]

theorem lazyUntil_skip (y : Char) (d : Str) (a rest : Str) (h : y ∉ a)
    (hl : ∀ ch ∈ a, isLineTerminator ch = false) :
    lazyUntil (y :: d) (a ++ ((y :: d) ++ rest)) = some (a, rest) := by
  induction a with
  | nil => simpa using lazyUntil_self y d rest
  | cons x t ih =>
    have hx : y ≠ x := fun e => h (by simp [e])
    have ht : y ∉ t := fun e => h (by simp [e])
    have hlx : isLineTerminator x = false := hl x (by simp)
    have := ih ht (fun ch hch => hl ch (by simp [hch]))
    show lazyUntil (y :: d) (x :: (t ++ ((y :: d) ++ rest))) = _
    rw [lazyUntil, isPrefixOf_cons_ne d _ hx, hlx, this]
    simp

/-- A delimited segment at the head of the text is replaced. -/
theorem replaceDelimited_wrap (y : Char) (d o c : Str) (a rest : Str) (h : y ∉ a)
    (hl : ∀ ch ∈ a, isLineTerminator ch = false) :
    replaceDelimited (y :: d) o c ((y :: d) ++ (a ++ ((y :: d) ++ rest)))
      = o ++ a ++ c ++ replaceDelimited (y :: d) o c rest := by
  have hp : (y :: d).isPrefixOf (y :: (d ++ (a ++ ((y :: d) ++ rest)))) = true := by
    simp [List.isPrefixOf]
  have hdrop : (y :: (d ++ (a ++ ((y :: d) ++ rest)))).drop (y :: d).length
      = a ++ ((y :: d) ++ rest) := by
    simp
  have := replaceDelimited_cons_some (y :: d) o c (by simp) y (d ++ (a ++ ((y :: d) ++ rest)))
    a rest hp (by rw [hdrop]; exact lazyUntil_skip y d a rest h hl)
  simpa using this

theorem replaceBullets_false (s : Str) (hl : ∀ ch ∈ s, isLineTerminator ch = false) :
    replaceBullets false s = s := by
  induction s with
  | nil => rfl
  | cons x t ih =>
    have hx := hl x (by simp)
    simp only [replaceBullets, Bool.false_and, hx]
    rw [ih (fun ch hch => hl ch (by simp [hch]))]
    simp

theorem bulletAt_false (x : Char) (t : Str) (h1 : x ≠ '-') (h2 : x ≠ '*') :
    bulletAt (x :: t) = false := by
  match t with
  | [] => rfl
  | [_] => simp [bulletAt]
  | y :: z :: u =>
    by_cases hy : y = ' '
    · subst hy; simp [bulletAt, h1, h2]
    · simp [bulletAt, hy]

theorem replaceBullets_id (s : Str) (h1 : '-' ∉ s) (h2 : '*' ∉ s) :
    ∀ b, replaceBullets b s = s := by
  induction s with
  | nil => intro b; rfl
  | cons x t ih =>
    intro b
    have hx1 : x ≠ '-' := fun e => h1 (by simp [e])
    have hx2 : x ≠ '*' := fun e => h2 (by simp [e])
    rw [replaceBullets, bulletAt_false x t hx1 hx2]
    simp only [Bool.and_false, Bool.false_eq_true, if_false]
    rw [ih (fun e => h1 (List.mem_cons_of_mem _ e)) (fun e => h2 (List.mem_cons_of_mem _ e))]

theorem replaceNewlines_id (s : Str) (h : '\n' ∉ s) : replaceNewlines s = s := by
  induction s with
  | nil => rfl
  | cons x t ih =>
    have hx : x ≠ '\n' := fun e => h (by simp [e])
    simp only [replaceNewlines, hx, if_false]
    rw [ih (fun e => h (by simp [e]))]

theorem newline_isLineTerminator : isLineTerminator '\n' = true := by decide

theorem not_mem_of_not_terminator (s : Str) (hl : ∀ ch ∈ s, isLineTerminator ch = false) :
    '\n' ∉ s := by
  intro h
  have := hl _ h
  simp [newline_isLineTerminator] at this

theorem bold_pass_tail (b c : Str) (hb : '*' ∉ b) (hc : '*' ∉ c) :
    replaceDelimited "**".toList "<strong>".toList "</strong>".toList (c ++ ('*' :: (b ++ ['*'])))
      = c ++ ('*' :: (b ++ ['*'])) := by
  show replaceDelimited ('*' :: ['*']) _ _ _ = _
  rw [replaceDelimited_copy _ _ _ _ _ _ hc]
  congr 1
  cases b with
  | nil =>
    rw [List.nil_append, replaceDelimited_cons_none _ _ _ _ _ (by decide),
      replaceDelimited_cons_skip _ _ _ _ _ (by decide)]
    rfl
  | cons x t =>
    have hx : '*' ≠ x := fun e => hb (by subst e; exact List.mem_cons_self _ _)
    rw [replaceDelimited_cons_skip _ _ _ _ _ (by simp [List.isPrefixOf, hx]),
      replaceDelimited_copy _ _ _ _ _ _ hb,
      replaceDelimited_cons_skip _ _ _ _ _ (by decide)]
    rfl

/-- C4: for all texts `a`, `b`, `c` without `*`, `_` and line terminators,
`formatMarkdown('**' + a + '**' + c + '*' + b + '*')` is
`'<strong>' + a + '</strong>' + c + '<em>' + b + '</em>'`: the bold pass consumes
the double delimiters and the italic pass does not read them again. -/
theorem formatMarkdown_bold_italic (a b c : Str) (ha : Plain a) (hb : Plain b) (hc : Plain c) :
    formatMarkdown ("**".toList ++ a ++ "**".toList ++ c ++ "*".toList ++ b ++ "*".toList)
      = "<strong>".toList ++ a ++ "</strong>".toList ++ c ++ "<em>".toList ++ b ++ "</em>".toList := by
  obtain ⟨ha1, ha2, ha3⟩ := ha
  obtain ⟨hb1, hb2, hb3⟩ := hb
  obtain ⟨hc1, hc2, hc3⟩ := hc
  have e0 : "**".toList ++ a ++ "**".toList ++ c ++ "*".toList ++ b ++ "*".toList
      = ('*' :: ['*']) ++ (a ++ (('*' :: ['*']) ++ (c ++ ('*' :: (b ++ ['*']))))) := by
    simp
  -- the bold pass
  have e1 : replaceDelimited "**".toList "<strong>".toList "</strong>".toList
      ("**".toList ++ a ++ "**".toList ++ c ++ "*".toList ++ b ++ "*".toList)
      = "<strong>".toList ++ a ++ "</strong>".toList ++ (c ++ ('*' :: (b ++ ['*']))) := by
    rw [e0]
    show replaceDelimited ('*' :: ['*']) _ _ _ = _
    rw [replaceDelimited_wrap _ _ _ _ _ _ ha1 ha3]
    congr 1
    exact bold_pass_tail b c hb1 hc1
  have hus : '_' ∉ "<strong>".toList ++ a ++ "</strong>".toList ++ (c ++ ('*' :: (b ++ ['*']))) := by
    simp [ha2, hb2, hc2]
  have e2 : replaceDelimited "__".toList "<strong>".toList "</strong>".toList
      ("<strong>".toList ++ a ++ "</strong>".toList ++ (c ++ ('*' :: (b ++ ['*']))))
      = "<strong>".toList ++ a ++ "</strong>".toList ++ (c ++ ('*' :: (b ++ ['*']))) :=
    replaceDelimited_id '_' ['_'] _ _ _ hus
  have hst : '*' ∉ "<strong>".toList ++ a ++ "</strong>".toList ++ c := by
    simp [ha1, hc1]
  have e3 : replaceDelimited "*".toList "<em>".toList "</em>".toList
      ("<strong>".toList ++ a ++ "</strong>".toList ++ (c ++ ('*' :: (b ++ ['*']))))
      = "<strong>".toList ++ a ++ "</strong>".toList ++ c ++ "<em>".toList ++ b ++ "</em>".toList := by
    have := replaceDelimited_copy '*' [] "<em>".toList "</em>".toList
      ("<strong>".toList ++ a ++ "</strong>".toList ++ c) ('*' :: (b ++ ['*'])) hst
    have w := replaceDelimited_wrap '*' [] "<em>".toList "</em>".toList b [] hb1 hb3
    simp only [List.singleton_append, List.append_nil, replaceDelimited_nil] at w
    rw [w] at this
    simpa using this
  have hus2 : '_' ∉ "<strong>".toList ++ a ++ "</strong>".toList ++ c ++ "<em>".toList ++ b
      ++ "</em>".toList := by
    simp [ha2, hb2, hc2]
  have e4 : replaceDelimited "_".toList "<em>".toList "</em>".toList
      ("<strong>".toList ++ a ++ "</strong>".toList ++ c ++ "<em>".toList ++ b ++ "</em>".toList)
      = "<strong>".toList ++ a ++ "</strong>".toList ++ c ++ "<em>".toList ++ b ++ "</em>".toList :=
    replaceDelimited_id '_' [] _ _ _ hus2
  have hlt : ∀ ch ∈ "<strong>".toList ++ a ++ "</strong>".toList ++ c ++ "<em>".toList ++ b
      ++ "</em>".toList, isLineTerminator ch = false := by
    intro ch hch
    simp only [List.mem_append] at hch
    rcases hch with (((((hch | hch) | hch) | hch) | hch) | hch) | hch
    · revert ch; decide
    · exact ha3 ch hch
    · revert ch; decide
    · exact hc3 ch hch
    · revert ch; decide
    · exact hb3 ch hch
    · revert ch; decide
  have e5 : replaceBullets true
      ("<strong>".toList ++ a ++ "</strong>".toList ++ c ++ "<em>".toList ++ b ++ "</em>".toList)
      = "<strong>".toList ++ a ++ "</strong>".toList ++ c ++ "<em>".toList ++ b ++ "</em>".toList := by
    have hsplit : "<strong>".toList ++ a ++ "</strong>".toList ++ c ++ "<em>".toList ++ b
        ++ "</em>".toList = '<' :: ("strong>".toList ++ a ++ "</strong>".toList ++ c
        ++ "<em>".toList ++ b ++ "</em>".toList) := by simp
    rw [hsplit] at hlt ⊢
    rw [replaceBullets, bulletAt_false _ _ (by decide) (by decide)]
    simp only [Bool.and_false, Bool.false_eq_true, if_false]
    rw [show isLineTerminator '<' = false by decide,
      replaceBullets_false _ (fun ch hch => hlt ch (List.mem_cons_of_mem _ hch))]
  have e6 := replaceNewlines_id _ (not_mem_of_not_terminator _ hlt)
  simp only [formatMarkdown]
  rw [e1, e2, e3, e4, e5, e6]

/-- The instance `**bold** and *italic*` of C4. -/
theorem formatMarkdown_bold_italic_witness :
    formatMarkdown "**bold** and *italic*".toList
      = "<strong>bold</strong> and <em>italic</em>".toList :=
  formatMarkdown_bold_italic "bold".toList "italic".toList " and ".toList
    ⟨by decide, by decide, by decide⟩ ⟨by decide, by decide, by decide⟩
    ⟨by decide, by decide, by decide⟩

/-! ### The formatter on plain text, bold and italic, bullets -/

theorem replaceNewlines_eq (s : Str) : replaceNewlines s = newlinesToBreaks s := by
  induction s with
  | nil => rfl
  | cons x t ih =>
    by_cases hx : x = '\n'
    · simp [replaceNewlines, newlinesToBreaks, hx, ← ih]
      simp [newlinesToBreaks] at ih
      exact ih
    · simp [replaceNewlines, newlinesToBreaks, hx]
      simp [newlinesToBreaks] at ih
      exact ih

theorem formatMarkdown_of_no_markup (text : Str) (h1 : '*' ∉ text) (h2 : '_' ∉ text)
    (h3 : '-' ∉ text) : formatMarkdown text = replaceNewlines text := by
  show replaceNewlines (replaceBullets true
    (replaceDelimited ('_' :: []) _ _ (replaceDelimited ('*' :: []) _ _
      (replaceDelimited ('_' :: ['_']) _ _ (replaceDelimited ('*' :: ['*']) _ _ text))))) = _
  rw [replaceDelimited_id '*' ['*'] _ _ _ h1, replaceDelimited_id '_' ['_'] _ _ _ h2,
    replaceDelimited_id '*' [] _ _ _ h1, replaceDelimited_id '_' [] _ _ _ h2,
    replaceBullets_id _ h3 h1]

theorem mem_replaceNewlines {ch : Char} {s : Str} (h : ch ∈ replaceNewlines s) :
    ch ∈ s ∨ ch ∈ "<br>".toList := by
  induction s with
  | nil => simp [replaceNewlines] at h
  | cons x t ih =>
    rw [replaceNewlines] at h
    split at h
    · rcases List.mem_append.mp h with h | h
      · exact Or.inr h
      · rcases ih h with h | h
        · exact Or.inl (List.mem_cons_of_mem _ h)
        · exact Or.inr h
    · rcases List.mem_cons.mp h with h | h
      · exact Or.inl (by simp [h])
      · rcases ih h with h | h
        · exact Or.inl (List.mem_cons_of_mem _ h)
        · exact Or.inr h

theorem newline_not_mem_replaceNewlines (s : Str) : '\n' ∉ replaceNewlines s := by
  induction s with
  | nil => simp [replaceNewlines]
  | cons x t ih =>
    rw [replaceNewlines]
    split
    · intro h
      rcases List.mem_append.mp h with h | h
      · revert h; decide
      · exact ih h
    · rename_i hx
      intro h
      rcases List.mem_cons.mp h with h | h
      · exact hx h.symm
      · exact ih h

/-- C6: for every text without `*`, `_` and `-`, `formatMarkdown` returns the
text with every newline replaced by `<br>` and nothing else changed; without a
newline the text comes back unchanged; and formatting the result once more
does not change it. -/
theorem formatMarkdown_plain_text (text : Str) (h1 : '*' ∉ text) (h2 : '_' ∉ text)
    (h3 : '-' ∉ text) :
    formatMarkdown text = newlinesToBreaks text
      ∧ ('\n' ∉ text → formatMarkdown text = text)
      ∧ formatMarkdown (formatMarkdown text) = formatMarkdown text := by
  have e := formatMarkdown_of_no_markup text h1 h2 h3
  refine ⟨by rw [e, replaceNewlines_eq], fun hn => by rw [e, replaceNewlines_id _ hn], ?_⟩
  rw [e]
  have k1 : '*' ∉ replaceNewlines text := fun h => by
    rcases mem_replaceNewlines h with h | h
    · exact h1 h
    · revert h; decide
  have k2 : '_' ∉ replaceNewlines text := fun h => by
    rcases mem_replaceNewlines h with h | h
    · exact h2 h
    · revert h; decide
  have k3 : '-' ∉ replaceNewlines text := fun h => by
    rcases mem_replaceNewlines h with h | h
    · exact h3 h
    · revert h; decide
  rw [formatMarkdown_of_no_markup _ k1 k2 k3,
    replaceNewlines_id _ (newline_not_mem_replaceNewlines text)]

/-- An instance of C6: a text with a `<` and a newline. -/
theorem formatMarkdown_plain_text_witness :
    formatMarkdown "a < b\nc".toList = newlinesToBreaks "a < b\nc".toList
      ∧ ('\n' ∉ "a < b\nc".toList → formatMarkdown "a < b\nc".toList = "a < b\nc".toList)
      ∧ formatMarkdown (formatMarkdown "a < b\nc".toList) = formatMarkdown "a < b\nc".toList :=
  formatMarkdown_plain_text "a < b\nc".toList (by decide) (by decide) (by decide)

/-- C5, the star half fails: the line `* a*b` begins with `* ` followed by a
non-empty rest without line terminator, yet the italic pass, which runs before
the bullet pass, consumes the leading star, and the output is
`<em> a</em>b`, which does not begin with the bullet glyph. -/
theorem formatMarkdown_star_line_not_bullet :
    formatMarkdown "* a*b".toList = "<em> a</em>b".toList
      ∧ "• ".toList.isPrefixOf (formatMarkdown ("* ".toList ++ "a*b".toList)) = false := by
  decide

theorem replaceDelimited_head (y : Char) (d o c : Str) (x : Char) (t : Str) :
    ∃ t', replaceDelimited (y :: d) ('<' :: o) c (x :: t) = x :: t'
      ∨ replaceDelimited (y :: d) ('<' :: o) c (x :: t) = '<' :: t' := by
  by_cases hp : (y :: d).isPrefixOf (x :: t) = true
  · cases hl : lazyUntil (y :: d) ((x :: t).drop (y :: d).length) with
    | none => exact ⟨_, Or.inl (replaceDelimited_cons_none _ _ _ _ _ hl)⟩
    | some pr =>
      obtain ⟨cap, rest⟩ := pr
      exact ⟨_, Or.inr (by
        rw [replaceDelimited_cons_some _ _ _ (by simp) _ _ _ _ hp hl]; rfl)⟩
  · exact ⟨_, Or.inl (replaceDelimited_cons_skip _ _ _ _ _ (Bool.eq_false_iff.mpr hp))⟩

theorem inline_passes_head (x : Char) (t : Str) (hx : isLineTerminator x = false) :
    ∃ z t', isLineTerminator z = false ∧
      replaceDelimited "_".toList "<em>".toList "</em>".toList
        (replaceDelimited "*".toList "<em>".toList "</em>".toList
          (replaceDelimited "__".toList "<strong>".toList "</strong>".toList
            (replaceDelimited "**".toList "<strong>".toList "</strong>".toList (x :: t))))
        = z :: t' := by
  have step : ∀ (y : Char) (d o c : Str) (z : Char) (u : Str), isLineTerminator z = false →
      ∃ z' u', isLineTerminator z' = false ∧
        replaceDelimited (y :: d) ('<' :: o) c (z :: u) = z' :: u' := by
    intro y d o c z u hz
    obtain ⟨t', h | h⟩ := replaceDelimited_head y d o c z u
    · exact ⟨z, t', hz, h⟩
    · exact ⟨'<', t', by decide, h⟩
  obtain ⟨z1, u1, h1, e1⟩ := step '*' ['*'] "strong>".toList "</strong>".toList x t hx
  obtain ⟨z2, u2, h2, e2⟩ := step '_' ['_'] "strong>".toList "</strong>".toList z1 u1 h1
  obtain ⟨z3, u3, h3, e3⟩ := step '*' [] "em>".toList "</em>".toList z2 u2 h2
  obtain ⟨z4, u4, h4, e4⟩ := step '_' [] "em>".toList "</em>".toList z3 u3 h3
  refine ⟨z4, u4, h4, ?_⟩
  show replaceDelimited ('_' :: []) ('<' :: "em>".toList) _
    (replaceDelimited ('*' :: []) ('<' :: "em>".toList) _
      (replaceDelimited ('_' :: ['_']) ('<' :: "strong>".toList) _
        (replaceDelimited ('*' :: ['*']) ('<' :: "strong>".toList) _ (x :: t)))) = _
  rw [e1, e2, e3, e4]

/-- The dash half of the bullet rule: a line `- rest` is always a bullet line. -/
theorem formatMarkdown_dash_bullet (x : Char) (t : Str) (hx : isLineTerminator x = false) :
    ∃ out, formatMarkdown ("- ".toList ++ (x :: t)) = "• ".toList ++ out := by
  obtain ⟨z, u, hz, e⟩ := inline_passes_head x t hx
  have c1 : ∀ (y : Char) (d o c s : Str), y ≠ '-' → y ≠ ' ' →
      replaceDelimited (y :: d) o c ('-' :: ' ' :: s)
        = '-' :: ' ' :: replaceDelimited (y :: d) o c s := by
    intro y d o c s hy1 hy2
    exact replaceDelimited_copy y d o c ['-', ' '] s (by simp [hy1, hy2])
  have e' : replaceDelimited "_".toList "<em>".toList "</em>".toList
        (replaceDelimited "*".toList "<em>".toList "</em>".toList
          (replaceDelimited "__".toList "<strong>".toList "</strong>".toList
            (replaceDelimited "**".toList "<strong>".toList "</strong>".toList
              ("- ".toList ++ (x :: t)))))
        = '-' :: ' ' :: z :: u := by
    show replaceDelimited ('_' :: []) _ _
      (replaceDelimited ('*' :: []) _ _
        (replaceDelimited ('_' :: ['_']) _ _
          (replaceDelimited ('*' :: ['*']) _ _ ('-' :: ' ' :: x :: t)))) = _
    rw [c1 _ _ _ _ _ (by decide) (by decide), c1 _ _ _ _ _ (by decide) (by decide),
      c1 _ _ _ _ _ (by decide) (by decide), c1 _ _ _ _ _ (by decide) (by decide)]
    exact congrArg (fun s => '-' :: ' ' :: s) e
  refine ⟨replaceNewlines (replaceBullets false (z :: u)), ?_⟩
  simp only [formatMarkdown]
  rw [e']
  have hb : bulletAt ('-' :: ' ' :: z :: u) = true := by simp [bulletAt, hz]
  rw [replaceBullets, hb]
  simp only [Bool.and_self, if_true]
  rw [replaceBullets]
  simp only [Bool.false_and, Bool.false_eq_true, if_false]
  rw [show isLineTerminator ' ' = false by decide]
  rw [replaceNewlines, replaceNewlines]
  simp

/-! ### The tags the formatter writes -/

theorem TagSafe.of_no_lt (s : Str) (h : '<' ∉ s) : TagSafe s := by
  induction s with
  | nil => exact TagSafe.nil
  | cons x t ih =>
    exact TagSafe.char x t (fun e => h (by subst e; exact List.mem_cons_self _ _))
      (ih (fun e => h (List.mem_cons_of_mem _ e)))

theorem TagSafe.append {a b : Str} (ha : TagSafe a) (hb : TagSafe b) : TagSafe (a ++ b) := by
  induction ha with
  | nil => exact hb
  | char x s hx _ ih => exact TagSafe.char x _ hx ih
  | tag tag s ht _ ih => rw [List.append_assoc]; exact TagSafe.tag tag _ ht ih

theorem tag_cases {tag : Str} (h : tag ∈ allowedTags) :
    tag = "<strong>".toList ∨ tag = "</strong>".toList ∨ tag = "<em>".toList
      ∨ tag = "</em>".toList ∨ tag = "<br>".toList := by
  simpa [allowedTags] using h

theorem tag_shape {tag : Str} (h : tag ∈ allowedTags) :
    ∃ body, tag = '<' :: body ∧ '<' ∉ body ∧ ∀ ch ∈ tag, isTagChar ch = true := by
  rcases tag_cases h with h | h | h | h | h <;> subst h <;>
    exact ⟨_, rfl, by decide, by decide⟩

/-- Inversion at a head character that is not `<`. -/
theorem TagSafe.tail_of_ne {x : Char} {s : Str} (h : TagSafe (x :: s)) (hx : x ≠ '<') :
    TagSafe s := by
  generalize e : x :: s = w at h
  cases h with
  | nil => cases e
  | char y u _ hu => cases e; exact hu
  | tag tag u ht hu =>
    obtain ⟨body, rfl, _, _⟩ := tag_shape ht
    simp only [List.cons_append, List.cons.injEq] at e
    exact absurd e.1 hx

/-- A safe text can be cut in front of a character that occurs in no tag. -/
theorem TagSafe.split {w : Str} (h : TagSafe w) : ∀ (u : Str) (x : Char) (v : Str),
    w = u ++ x :: v → isTagChar x = false → TagSafe u ∧ TagSafe (x :: v) := by
  induction h with
  | nil => intro u x v e; simp at e
  | char y s hy hs ih =>
    intro u x v e hx
    cases u with
    | nil =>
      simp only [List.nil_append, List.cons.injEq] at e
      obtain ⟨rfl, rfl⟩ := e
      exact ⟨TagSafe.nil, TagSafe.char _ _ hy hs⟩
    | cons z u' =>
      simp only [List.cons_append, List.cons.injEq] at e
      obtain ⟨rfl, rfl⟩ := e
      obtain ⟨h1, h2⟩ := ih u' x v rfl hx
      exact ⟨TagSafe.char _ _ hy h1, h2⟩
  | tag tag s ht hs ih =>
    intro u x v e hx
    obtain ⟨body, hb, _, hchars⟩ := tag_shape ht
    rcases List.append_eq_append_iff.mp e with ⟨a', h1, h2⟩ | ⟨c', h1, h2⟩
    · -- u = tag ++ a'
      obtain ⟨k1, k2⟩ := ih a' x v h2 hx
      rw [h1]
      exact ⟨TagSafe.tag tag _ ht k1, k2⟩
    · -- tag = u ++ c', x :: v = c' ++ s
      cases c' with
      | nil =>
        simp only [List.append_nil] at h1
        simp only [List.nil_append] at h2
        subst h1
        obtain ⟨k1, k2⟩ := ih [] x v h2.symm hx
        rw [h2]
        exact ⟨by simpa using TagSafe.tag tag [] ht TagSafe.nil, hs⟩
      | cons z c'' =>
        simp only [List.cons_append, List.cons.injEq] at h2
        obtain ⟨rfl, _⟩ := h2
        have : isTagChar x = true := hchars x (by rw [h1]; simp)
        rw [this] at hx
        cases hx

theorem lt_isTagChar : isTagChar '<' = true := by decide

theorem TagSafe.strip {d w : Str} (hd : ∀ ch ∈ d, isTagChar ch = false) (h : TagSafe (d ++ w)) :
    TagSafe w := by
  induction d with
  | nil => exact h
  | cons x t ih =>
    have hx : x ≠ '<' := by
      intro e
      have := hd x (List.mem_cons_self _ _)
      rw [e, lt_isTagChar] at this
      cases this
    exact ih (fun ch hch => hd ch (List.mem_cons_of_mem _ hch)) (TagSafe.tail_of_ne h hx)

theorem TagSafe.of_tag {tag : Str} (h : tag ∈ allowedTags) : TagSafe tag := by
  simpa using TagSafe.tag tag [] h TagSafe.nil

theorem prefix_eq_append {d s : Str} (h : d.isPrefixOf s = true) :
    s = d ++ s.drop d.length := by
  rw [List.isPrefixOf_iff_prefix] at h
  obtain ⟨u, rfl⟩ := h
  simp

theorem replaceDelimited_tagSafe (y : Char) (d o c : Str)
    (hd : ∀ ch ∈ y :: d, isTagChar ch = false) (ho : o ∈ allowedTags) (hc : c ∈ allowedTags) :
    ∀ (n : Nat) (s : Str), s.length ≤ n → TagSafe s → TagSafe (replaceDelimited (y :: d) o c s) := by
  intro n
  induction n with
  | zero =>
    intro s hn hs
    have : s = [] := List.length_eq_zero.mp (Nat.le_zero.mp hn)
    subst this
    exact TagSafe.nil
  | succ n ih =>
    intro s hn hs
    cases hs with
    | nil => exact TagSafe.nil
    | char x t hx ht =>
      have hlen : t.length ≤ n := by simpa using hn
      by_cases hp : (y :: d).isPrefixOf (x :: t) = true
      · cases hl : lazyUntil (y :: d) ((x :: t).drop (y :: d).length) with
        | none =>
          rw [replaceDelimited_cons_none _ _ _ _ _ hl]
          exact TagSafe.char x _ hx (ih t hlen ht)
        | some pr =>
          obtain ⟨cap, rest⟩ := pr
          rw [replaceDelimited_cons_some _ _ _ (by simp) _ _ _ _ hp hl]
          have e1 := prefix_eq_append hp
          have e2 := lazyUntil_eq hl
          have hfull : TagSafe ((y :: d) ++ (cap ++ ((y :: d) ++ rest))) := by
            have : x :: t = (y :: d) ++ (cap ++ ((y :: d) ++ rest)) := by
              rw [e1, e2]; simp
            rw [← this]
            exact TagSafe.char x t hx ht
          have h1 := TagSafe.strip hd hfull
          obtain ⟨hcap, h2⟩ := TagSafe.split h1 cap y (d ++ rest) (by simp)
            (hd y (List.mem_cons_self _ _))
          have hrest : TagSafe rest := TagSafe.strip hd (by simpa using h2)
          have hrl : rest.length ≤ n := by
            have : (x :: t).length = ((y :: d) ++ (cap ++ ((y :: d) ++ rest))).length := by
              rw [e1, e2]; simp
            simp only [List.length_cons, List.length_append] at this
            omega
          exact TagSafe.append (TagSafe.append (TagSafe.append (TagSafe.of_tag ho) hcap)
            (TagSafe.of_tag hc)) (ih rest hrl hrest)
      · rw [replaceDelimited_cons_skip _ _ _ _ _ (Bool.eq_false_iff.mpr hp)]
        exact TagSafe.char x _ hx (ih t hlen ht)
    | tag tg rest htg hrest =>
      obtain ⟨body, hb, _, hchars⟩ := tag_shape htg
      have hy : y ∉ tg := by
        intro hmem
        have h1 := hchars y hmem
        rw [hd y (List.mem_cons_self _ _)] at h1
        cases h1
      rw [replaceDelimited_copy y d o c tg rest hy]
      have hrl : rest.length ≤ n := by
        rw [hb] at hn
        simp only [List.cons_append, List.length_cons, List.length_append] at hn
        omega
      exact TagSafe.tag tg _ htg (ih rest hrl hrest)

theorem replaceBullets_false_append (w s : Str) (hw : ∀ ch ∈ w, isLineTerminator ch = false) :
    replaceBullets false (w ++ s) = w ++ replaceBullets false s := by
  induction w with
  | nil => rfl
  | cons x t ih =>
    rw [List.cons_append, replaceBullets]
    simp only [Bool.false_and, Bool.false_eq_true, if_false]
    rw [hw x (List.mem_cons_self _ _), ih (fun ch hch => hw ch (List.mem_cons_of_mem _ hch))]
    rfl

theorem replaceBullets_tag {tg : Str} (htg : tg ∈ allowedTags) (b : Bool) (s : Str) :
    replaceBullets b (tg ++ s) = tg ++ replaceBullets false s := by
  have key : ∀ body : Str, (∀ ch ∈ body, isLineTerminator ch = false) →
      replaceBullets b (('<' :: body) ++ s) = ('<' :: body) ++ replaceBullets false s := by
    intro body hbody
    rw [List.cons_append, replaceBullets, bulletAt_false _ _ (by decide) (by decide)]
    simp only [Bool.and_false, Bool.false_eq_true, if_false]
    rw [show isLineTerminator '<' = false by decide, replaceBullets_false_append _ _ hbody]
    rfl
  rcases tag_cases htg with h | h | h | h | h <;> subst h <;> exact key _ (by decide)

theorem replaceBullets_tagSafe {s : Str} (h : TagSafe s) :
    ∀ b, TagSafe (replaceBullets b s) := by
  induction h with
  | nil => intro b; exact TagSafe.nil
  | char x t hx _ ih =>
    intro b
    rw [replaceBullets]
    split
    · exact TagSafe.char _ _ (by decide) (ih false)
    · exact TagSafe.char _ _ hx (ih _)
  | tag tg t htg _ ih =>
    intro b
    rw [replaceBullets_tag htg]
    exact TagSafe.tag tg _ htg (ih false)

theorem replaceNewlines_append (a b : Str) :
    replaceNewlines (a ++ b) = replaceNewlines a ++ replaceNewlines b := by
  induction a with
  | nil => rfl
  | cons x t ih =>
    rw [List.cons_append, replaceNewlines, replaceNewlines, ih]
    split <;> simp

theorem replaceNewlines_tagSafe {s : Str} (h : TagSafe s) : TagSafe (replaceNewlines s) := by
  induction h with
  | nil => exact TagSafe.nil
  | char x t hx _ ih =>
    rw [replaceNewlines]
    split
    · exact TagSafe.tag _ _ (by decide) ih
    · exact TagSafe.char _ _ hx ih
  | tag tg t htg _ ih =>
    rw [replaceNewlines_append]
    have : replaceNewlines tg = tg := by
      rcases tag_cases htg with h | h | h | h | h <;> subst h <;> decide
    rw [this]
    exact TagSafe.tag tg _ htg ih

theorem onlyAllowedTags_append_of_no_lt (w s : Str) (hw : '<' ∉ w) :
    onlyAllowedTags (w ++ s) = onlyAllowedTags s := by
  induction w with
  | nil => rfl
  | cons x t ih =>
    have hx : x ≠ '<' := fun e => hw (by subst e; exact List.mem_cons_self _ _)
    rw [List.cons_append, onlyAllowedTags, ih (fun e => hw (List.mem_cons_of_mem _ e))]
    simp [hx]

theorem onlyAllowedTags_of_tagSafe {s : Str} (h : TagSafe s) : onlyAllowedTags s = true := by
  induction h with
  | nil => rfl
  | char x t hx _ ih =>
    rw [onlyAllowedTags, ih]
    simp [hx]
  | tag tg t htg _ ih =>
    obtain ⟨body, hb, hbody, _⟩ := tag_shape htg
    have hpre : allowedTags.any (fun tag => tag.isPrefixOf (tg ++ t)) = true := by
      rw [List.any_eq_true]
      exact ⟨tg, htg, by simp [List.isPrefixOf_iff_prefix]⟩
    have e : tg ++ t = '<' :: (body ++ t) := by rw [hb]; rfl
    rw [e] at hpre ⊢
    rw [onlyAllowedTags, hpre, onlyAllowedTags_append_of_no_lt _ _ hbody, ih]
    simp

theorem formatMarkdown_tagSafe (text : Str) (h : TagSafe text) : TagSafe (formatMarkdown text) := by
  have p1 := replaceDelimited_tagSafe '*' ['*'] "<strong>".toList "</strong>".toList (by decide)
    (by decide) (by decide) _ text (le_refl _) h
  have p2 := replaceDelimited_tagSafe '_' ['_'] "<strong>".toList "</strong>".toList (by decide)
    (by decide) (by decide) _ _ (le_refl _) p1
  have p3 := replaceDelimited_tagSafe '*' [] "<em>".toList "</em>".toList (by decide)
    (by decide) (by decide) _ _ (le_refl _) p2
  have p4 := replaceDelimited_tagSafe '_' [] "<em>".toList "</em>".toList (by decide)
    (by decide) (by decide) _ _ (le_refl _) p3
  exact replaceNewlines_tagSafe (replaceBullets_tagSafe p4 true)

theorem tagSafe_of_onlyAllowedTags : ∀ (n : Nat) (s : Str), s.length ≤ n →
    onlyAllowedTags s = true → TagSafe s := by
  intro n
  induction n with
  | zero =>
    intro s hn _
    have : s = [] := List.length_eq_zero.mp (Nat.le_zero.mp hn)
    subst this
    exact TagSafe.nil
  | succ n ih =>
    intro s hn h
    cases s with
    | nil => exact TagSafe.nil
    | cons x t =>
      have hlen : t.length ≤ n := by simpa using hn
      rw [onlyAllowedTags, Bool.and_eq_true, Bool.or_eq_true] at h
      obtain ⟨h1, h2⟩ := h
      by_cases hx : x = '<'
      · rcases h1 with h1 | h1
        · simp [hx] at h1
        · rw [List.any_eq_true] at h1
          obtain ⟨tg, htg, hpre⟩ := h1
          obtain ⟨body, hb, hbody, _⟩ := tag_shape htg
          have e := prefix_eq_append hpre
          generalize hrest : (x :: t).drop tg.length = rest at e
          have ht : t = body ++ rest := by
            rw [hb] at e
            simp only [List.cons_append, List.cons.injEq] at e
            exact e.2
          rw [ht, onlyAllowedTags_append_of_no_lt _ _ hbody] at h2
          have hrl : rest.length ≤ n := by
            rw [ht] at hlen
            simp only [List.length_append] at hlen
            omega
          rw [e]
          exact TagSafe.tag tg rest htg (ih rest hrl h2)
      · exact TagSafe.char x t hx (ih t hlen h2)

theorem onlyAllowedTags_of_no_lt (text : Str) (h : '<' ∉ text) : onlyAllowedTags text = true :=
  onlyAllowedTags_of_tagSafe (TagSafe.of_no_lt text h)

/-- C3, as amended: `formatMarkdown` itself writes only the tags `<strong>`,
`</strong>`, `<em>`, `</em>` and `<br>` and breaks none of them: for every input
in which every `<` begins one of these five tags (in particular every input
without `<`), every `<` of the output begins one of these five tags. -/
theorem formatMarkdown_writes_only_allowed_tags (text : Str)
    (h : onlyAllowedTags text = true) : onlyAllowedTags (formatMarkdown text) = true :=
  onlyAllowedTags_of_tagSafe
    (formatMarkdown_tagSafe text (tagSafe_of_onlyAllowedTags text.length text (le_refl _) h))

/-- An instance of the amended C3: Markdown markup next to an allowed tag. -/
theorem formatMarkdown_writes_only_allowed_tags_witness :
    onlyAllowedTags "**a** _b_<br>\n- c > d".toList = true
      ∧ onlyAllowedTags (formatMarkdown "**a** _b_<br>\n- c > d".toList) = true :=
  ⟨by decide, formatMarkdown_writes_only_allowed_tags _ (by decide)⟩

/-- C3 as written fails: a `<script>` element in the input is passed through
unchanged, so the output holds a tag outside the allowed five. -/
theorem formatMarkdown_passes_script_tag :
    formatMarkdown "<script>alert(1)</script>".toList = "<script>alert(1)</script>".toList
      ∧ onlyAllowedTags (formatMarkdown "<script>alert(1)</script>".toList) = false := by
  decide

/-! ### The read loop -/

theorem processLine_eq (env : Platform) (st : StreamState) (line : Str) :
    processLine env st line =
      match eventFragment env line with
      | some piece => ⟨st.fullText ++ piece, formatMarkdown (st.fullText ++ piece)⟩
      | none => st := by
  unfold processLine eventFragment
  by_cases hp : "data: ".toList.isPrefixOf line = true
  · by_cases hd : trim (line.drop 6) = "[DONE]".toList
    · simp [hp, hd]
    · simp only [hp, hd, if_true, if_false, ne_eq, not_false_eq_true, and_self]
      cases env.jsonParse (trim (line.drop 6)) with
      | none => rfl
      | some parsed =>
        simp only
        cases getProp parsed "text".toList with
        | none => rfl
        | some v =>
          simp only
          by_cases ht : truthy v = true
          · simp only [ht, if_true]
            cases toStr v <;> rfl
          · simp only [ht, if_false, Bool.false_eq_true]
  · rw [if_neg hp, if_neg (fun h => hp h.1)]

/-- A `[DONE]` line delivers no fragment. -/
theorem eventFragment_done (env : Platform) (line : Str)
    (h : trim (line.drop 6) = "[DONE]".toList) : eventFragment env line = none := by
  unfold eventFragment
  rw [if_neg (fun hc => hc.2 h)]

/-- A line whose payload does not parse delivers no fragment. -/
theorem eventFragment_unparsable (env : Platform) (line : Str)
    (h : env.jsonParse (trim (line.drop 6)) = none) : eventFragment env line = none := by
  unfold eventFragment
  rw [h]
  split <;> rfl

/-- A line that is not an event line delivers no fragment. -/
theorem eventFragment_other (env : Platform) (line : Str)
    (h : "data: ".toList.isPrefixOf line = false) : eventFragment env line = none := by
  unfold eventFragment
  rw [if_neg (fun hc => by rw [h] at hc; exact absurd hc.1 (by decide))]

theorem foldl_processLine (env : Platform) (lines : List Str) : ∀ st : StreamState,
    st.html = formatMarkdown st.fullText →
    (lines.foldl (processLine env) st).fullText
        = st.fullText ++ (lines.filterMap (eventFragment env)).flatten
      ∧ (lines.foldl (processLine env) st).html
        = formatMarkdown (lines.foldl (processLine env) st).fullText := by
  induction lines with
  | nil => intro st h; simp [h]
  | cons l ls ih =>
    intro st h
    rw [List.foldl_cons, processLine_eq]
    cases hf : eventFragment env l with
    | none =>
      simp only [List.filterMap_cons, hf]
      exact ih st h
    | some piece =>
      simp only [List.filterMap_cons, hf, List.flatten_cons]
      obtain ⟨h1, h2⟩ := ih ⟨st.fullText ++ piece, formatMarkdown (st.fullText ++ piece)⟩ rfl
      exact ⟨by rw [h1, List.append_assoc], h2⟩

theorem readLoop_eq (env : Platform) (chunks : List (List Nat)) (st : StreamState) :
    readLoop env chunks st = (streamLines env chunks).foldl (processLine env) st := by
  unfold readLoop streamLines
  induction chunks generalizing st with
  | nil => rfl
  | cons c cs ih =>
    rw [List.foldl_cons, ih, List.flatMap_cons, List.foldl_append]
    rfl

theorem formatMarkdown_nil : formatMarkdown [] = [] := by decide

theorem streamedText_eq (env : Platform) (chunks : List (List Nat)) :
    streamedText env chunks = ((streamLines env chunks).filterMap (eventFragment env)).flatten
      ∧ streamedHtml env chunks = formatMarkdown (streamedText env chunks) := by
  unfold streamedText streamedHtml
  rw [readLoop_eq]
  have := foldl_processLine env (streamLines env chunks) ⟨[], []⟩ formatMarkdown_nil.symm
  simpa using this

theorem split_ne_nil (sep : Char) (s : Str) : split sep s ≠ [] := by
  cases s with
  | nil => simp [split]
  | cons x t =>
    rw [split]
    split
    · simp
    · split <;> simp

theorem split_append_sep (sep : Char) (a v : Str) :
    split sep (a ++ sep :: v) = split sep a ++ split sep v := by
  induction a with
  | nil => simp [split]
  | cons x t ih =>
    rw [List.cons_append, split, split, ih]
    by_cases hx : x = sep
    · simp [hx]
    · simp only [hx, if_false]
      cases hs : split sep t with
      | nil => exact absurd hs (split_ne_nil sep t)
      | cons l ls => rfl

theorem processLine_nil (env : Platform) (st : StreamState) : processLine env st [] = st := by
  rw [processLine_eq]
  have : eventFragment env [] = none := by
    unfold eventFragment
    rw [if_neg (fun h => by simp at h)]
  rw [this]

/-- The read loop over texts cut at line ends equals one pass over their
concatenation. -/
theorem foldl_lines_of_cut (env : Platform) (texts : List Str) : ∀ st : StreamState,
    (∀ t ∈ texts.dropLast, ∃ u, t = u ++ ['\n']) →
    texts.foldl (fun st t => (split '\n' t).foldl (processLine env) st) st
      = (split '\n' texts.flatten).foldl (processLine env) st := by
  induction texts with
  | nil => intro st _; simp [split, processLine_nil]
  | cons t ts ih =>
    intro st h
    cases ts with
    | nil => simp
    | cons t2 ts2 =>
      obtain ⟨u, hu⟩ := h t (by simp [List.dropLast])
      have ih' := ih ((split '\n' t).foldl (processLine env) st)
        (fun x hx => h x (by simp only [List.dropLast_cons₂]; exact List.mem_cons_of_mem _ hx))
      rw [List.foldl_cons, ih']
      subst hu
      have e1 : split '\n' (u ++ ['\n']) = split '\n' u ++ [[]] := by
        rw [split_append_sep]; rfl
      have e2 : ((u ++ ['\n']) :: t2 :: ts2).flatten = u ++ '\n' :: (t2 :: ts2).flatten := by
        simp
      rw [e1, e2, split_append_sep, List.foldl_append, List.foldl_append]
      simp [processLine_nil]

/-- The chunks are processed one after the other with nothing but `fullText`
carried over: the text of a sequence of chunks is the text of its first part
followed by the text of the rest. -/
theorem streamedText_append (env : Platform) (a b : List (List Nat)) :
    streamedText env (a ++ b) = streamedText env a ++ streamedText env b := by
  rw [(streamedText_eq env (a ++ b)).1, (streamedText_eq env a).1, (streamedText_eq env b).1]
  simp [streamLines]

/-- C2, as amended: for every body and every way of cutting it into chunks in
which every chunk but the last ends with a newline and decoding chunk by chunk
gives the text of the whole body, the accumulated text is the same as when the
body arrives as a single chunk. -/
theorem streamedText_of_line_cut (env : Platform) (chunks : List (List Nat))
    (hcut : ∀ value ∈ chunks.dropLast, (env.decode value).getLast? = some '\n')
    (hdec : env.decode chunks.flatten = (chunks.map env.decode).flatten) :
    streamedText env chunks = streamedText env [chunks.flatten] := by
  unfold streamedText readLoop processChunk
  rw [List.foldl_cons, List.foldl_nil, hdec]
  have h := foldl_lines_of_cut env (chunks.map env.decode) ⟨[], []⟩ (by
    intro t ht
    rw [← List.map_dropLast] at ht
    obtain ⟨c, hc, rfl⟩ := List.mem_map.mp ht
    exact List.getLast?_eq_some_iff.mp (hcut c hc))
  rw [← h, List.foldl_map]

/-- An instance of the amended C2: two events, one per chunk. -/
theorem streamedText_of_line_cut_witness :
    streamedText browser
        [utf8Encode "data: \x7b\"text\":\"caf\"\x7d\n".toList,
         utf8Encode "data: \x7b\"text\":\"é\"\x7d\n".toList]
      = streamedText browser
        [[utf8Encode "data: \x7b\"text\":\"caf\"\x7d\n".toList,
          utf8Encode "data: \x7b\"text\":\"é\"\x7d\n".toList].flatten] :=
  streamedText_of_line_cut browser _ (by decide) (by decide)

/-- C2 as written fails: the body `data: {"text":"A"}` gives `A` as one chunk
and nothing when cut after `{"te`; the body with the text `é` gives `é` as one
chunk and nothing when cut between the two bytes of `é`. -/
theorem streamedText_depends_on_chunking :
    streamedText browser [utf8Encode "data: \x7b\"text\":\"A\"\x7d\n".toList] = "A".toList
      ∧ streamedText browser
          [utf8Encode "data: \x7b\"te".toList, utf8Encode "xt\":\"A\"\x7d\n".toList] = []
      ∧ streamedText browser [[100, 97, 116, 97, 58, 32, 123, 34, 116, 101, 120, 116, 34, 58, 34,
          195, 169, 34, 125, 10]] = "é".toList
      ∧ streamedText browser [[100, 97, 116, 97, 58, 32, 123, 34, 116, 101, 120, 116, 34, 58, 34,
          195], [169, 34, 125, 10]] = [] := by
  decide


/-! ### Sending a message -/

theorem formatMarkdown_streamApology : formatMarkdown streamApology = streamApology := by
  decide

theorem removeTypingIndicator_last (id : Str) (p : Page) (l : List Node)
    (hl : Node.typing id ∉ l) (hp : p.chatMessages = l ++ [Node.typing id]) :
    removeTypingIndicator id p
      = { p with chatMessages := l, removed := p.removed ++ [Node.typing id] } := by
  unfold removeTypingIndicator
  have hmem : Node.typing id ∈ p.chatMessages := by rw [hp]; simp
  rw [if_pos hmem, hp, List.erase_append_right _ hl]
  simp

theorem streamChatResponse_no_throw (env : Platform) (message typingId : Str)
    (reply : ChatReply) (p : Page) :
    (streamChatResponse env message typingId reply p).2 = none := by
  unfold streamChatResponse
  split <;> rfl

theorem sendMessage_no_throw (env : Platform) (now : Nat) (reply : ChatReply) (p : Page) :
    (sendMessage env now reply p).2 = none := by
  unfold sendMessage
  simp only
  split
  · rfl
  · split <;> rfl

/-- What `streamChatResponse` does when the request fails before streaming. -/
theorem streamChatResponse_failure (env : Platform) (message typingId : Str)
    (reply : ChatReply) (p : Page) (l : List Node)
    (hfail : reply = ChatReply.rejected ∨ ∃ r, reply = ChatReply.response r ∧ r.ok = false)
    (hl : Node.typing typingId ∉ l) (hp : p.chatMessages = l ++ [Node.typing typingId]) :
    streamChatResponse env message typingId reply p
      = ({ p with chatMessages := l ++ [Node.message Sender.bot streamApology],
                  removed := p.removed ++ [Node.typing typingId],
                  requests := p.requests ++ [Request.chat message] }, none) := by
  have key : ∀ e, streamChatResponseTry env message typingId reply p
      = ({ p with requests := p.requests ++ [Request.chat message] }, some e) →
      streamChatResponse env message typingId reply p
      = ({ p with chatMessages := l ++ [Node.message Sender.bot streamApology],
                  removed := p.removed ++ [Node.typing typingId],
                  requests := p.requests ++ [Request.chat message] }, none) := by
    intro e he
    unfold streamChatResponse
    rw [he]
    simp only
    rw [removeTypingIndicator_last typingId _ l hl (by exact hp)]
    simp [addMessage, formatMarkdown_streamApology]
  rcases hfail with h | ⟨r, h, hr⟩
  · subst h
    exact key _ rfl
  · subst h
    refine key "Network response was not ok".toList ?_
    simp [streamChatResponseTry, hr]

/-- C7: when a non-empty message is sent and the chat request fails before
streaming starts (the fetch rejects, or the status is not OK), the display gains
exactly the user turn followed by one bot turn holding the fixed apology, and
no streamed bubble; the typing indicator of this send is the one element
removed, once; exactly one request was issued; and neither `sendMessage` nor
`streamChatResponse` throws. The indicator id is assumed not to be in use
already (no send is in flight). -/
theorem sendMessage_on_request_failure (env : Platform) (now : Nat) (reply : ChatReply)
    (p : Page) (hmsg : trim p.inputValue ≠ [])
    (hfail : reply = ChatReply.rejected ∨ ∃ r, reply = ChatReply.response r ∧ r.ok = false)
    (hfresh : Node.typing (typingIdAt now) ∉ p.chatMessages) :
    (sendMessage env now reply p).1.chatMessages
        = p.chatMessages ++ [Node.message Sender.user (trim p.inputValue),
                             Node.message Sender.bot streamApology]
      ∧ (sendMessage env now reply p).1.removed = p.removed ++ [Node.typing (typingIdAt now)]
      ∧ (sendMessage env now reply p).1.requests
          = p.requests ++ [Request.chat (trim p.inputValue)]
      ∧ (sendMessage env now reply p).2 = none
      ∧ ∀ (message typingId : Str) (q : Page),
          (streamChatResponse env message typingId reply q).2 = none := by
  refine ⟨?_, ?_, ?_, sendMessage_no_throw env now reply p,
    fun m t q => streamChatResponse_no_throw env m t reply q⟩
  all_goals
    unfold sendMessage
    simp only [if_neg hmsg]
    rw [streamChatResponse_failure env _ _ reply _
      (p.chatMessages ++ [Node.message Sender.user (trim p.inputValue)]) hfail
      (by
        intro h
        rcases List.mem_append.mp h with h | h
        · exact hfresh h
        · simp at h)
      (by simp [showTypingIndicator, addMessage, hideWelcomeScreen]; split <;> rfl)]
    simp [showTypingIndicator, addMessage, hideWelcomeScreen, typingIdAt]
    try (split <;> rfl)

/-- An instance of C7: a non-OK response to the message `Bonjour`. -/
theorem sendMessage_on_request_failure_witness :
    (sendMessage browser 1700000000000 (ChatReply.response ⟨false, [], false⟩)
        (pageWith "  Bonjour ".toList "Message".toList)).1.chatMessages
        = [Node.message Sender.user "Bonjour".toList, Node.message Sender.bot streamApology]
      ∧ (sendMessage browser 1700000000000 (ChatReply.response ⟨false, [], false⟩)
        (pageWith "  Bonjour ".toList "Message".toList)).1.removed
        = [Node.typing "typing-1700000000000".toList] :=
  ⟨(sendMessage_on_request_failure browser 1700000000000 (ChatReply.response ⟨false, [], false⟩)
      (pageWith "  Bonjour ".toList "Message".toList) (by decide)
      (Or.inr ⟨_, rfl, rfl⟩) (by decide)).1,
   (sendMessage_on_request_failure browser 1700000000000 (ChatReply.response ⟨false, [], false⟩)
      (pageWith "  Bonjour ".toList "Message".toList) (by decide)
      (Or.inr ⟨_, rfl, rfl⟩) (by decide)).2.1⟩

theorem set_append_singleton (l : List Node) (a b : Node) :
    (l ++ [a]).set l.length b = l ++ [b] := by
  induction l with
  | nil => rfl
  | cons x t ih => simp [List.set, ih]

theorem removeTypingIndicator_absent (id : Str) (p : Page) (h : Node.typing id ∉ p.chatMessages) :
    removeTypingIndicator id p = p := by
  unfold removeTypingIndicator
  rw [if_neg h]

/-- What `streamChatResponse` does when the status is OK. -/
theorem streamChatResponse_ok (env : Platform) (message typingId : Str) (r : ChatResponse)
    (p : Page) (l : List Node) (hr : r.ok = true)
    (hl : Node.typing typingId ∉ l) (hp : p.chatMessages = l ++ [Node.typing typingId]) :
    streamChatResponse env message typingId (ChatReply.response r) p
      = ({ p with chatMessages := l ++ botTurns env (ChatReply.response r),
                  removed := p.removed ++ [Node.typing typingId],
                  requests := p.requests ++ [Request.chat message] }, none) := by
  have htry : streamChatResponseTry env message typingId (ChatReply.response r) p
      = ({ p with chatMessages := l ++ [Node.message Sender.bot (streamedHtml env r.chunks)],
                  removed := p.removed ++ [Node.typing typingId],
                  requests := p.requests ++ [Request.chat message] },
         if r.readFails then some "The stream could not be read".toList else none) := by
    unfold streamChatResponseTry
    simp only [hr, Bool.not_true, Bool.false_eq_true, if_false]
    rw [removeTypingIndicator_last typingId _ l hl (by exact hp)]
    simp only [set_append_singleton]
    split <;> rfl
  unfold streamChatResponse
  rw [htry]
  by_cases hf : r.readFails = true
  · simp only [hf, if_true]
    rw [removeTypingIndicator_absent _ _ (by
      intro h
      rcases List.mem_append.mp h with h | h
      · exact hl h
      · simp at h)]
    simp [addMessage, formatMarkdown_streamApology, botTurns, hr, hf,
      (streamedText_eq env r.chunks).2]
  · simp only [hf, if_false, Bool.false_eq_true]
    simp [botTurns, hr, hf, (streamedText_eq env r.chunks).2]

theorem streamChatResponse_eq (env : Platform) (message typingId : Str) (reply : ChatReply)
    (p : Page) (l : List Node)
    (hl : Node.typing typingId ∉ l) (hp : p.chatMessages = l ++ [Node.typing typingId]) :
    streamChatResponse env message typingId reply p
      = ({ p with chatMessages := l ++ botTurns env reply,
                  removed := p.removed ++ [Node.typing typingId],
                  requests := p.requests ++ [Request.chat message] }, none) := by
  cases reply with
  | rejected => exact streamChatResponse_failure env _ _ _ p l (Or.inl rfl) hl hp
  | response r =>
    by_cases hr : r.ok = true
    · exact streamChatResponse_ok env _ _ r p l hr hl hp
    · have := streamChatResponse_failure env message typingId (ChatReply.response r) p l
        (Or.inr ⟨r, rfl, by simpa using hr⟩) hl hp
      rw [this]
      simp [botTurns, hr]

/-- C10, as amended: when the trimmed input is empty `sendMessage` leaves the
page as it is (no turn, no request); when it is non-empty, exactly one request
is issued and the display gains the user turn, whose text is the trimmed
input, followed by the bot turns of `botTurns`: the apology, or the streamed
bubble showing the formatted accumulated text. The indicator id is assumed not
to be in use already. -/
theorem sendMessage_turns (env : Platform) (now : Nat) (reply : ChatReply) (p : Page)
    (hfresh : Node.typing (typingIdAt now) ∉ p.chatMessages) :
    (trim p.inputValue = [] → sendMessage env now reply p = (p, none))
      ∧ (trim p.inputValue ≠ [] →
          (sendMessage env now reply p).1.chatMessages
              = p.chatMessages ++ Node.message Sender.user (trim p.inputValue)
                  :: botTurns env reply
            ∧ (sendMessage env now reply p).1.requests
              = p.requests ++ [Request.chat (trim p.inputValue)]) := by
  refine ⟨fun h => by unfold sendMessage; simp only [h, if_true], fun hmsg => ?_⟩
  constructor
  all_goals
    unfold sendMessage
    simp only [if_neg hmsg]
    rw [streamChatResponse_eq env _ _ reply _
      (p.chatMessages ++ [Node.message Sender.user (trim p.inputValue)])
      (by
        intro h
        rcases List.mem_append.mp h with h | h
        · exact hfresh h
        · simp at h)
      (by simp [showTypingIndicator, addMessage, hideWelcomeScreen]; split <;> rfl)]
    simp [showTypingIndicator, addMessage, hideWelcomeScreen, typingIdAt]
    try (split <;> rfl)

/-- An instance of the amended C10: a blank input, and a one-fragment reply. -/
theorem sendMessage_turns_witness :
    sendMessage browser 1700000000000 ChatReply.rejected (pageWith " \n".toList "Message".toList)
        = (pageWith " \n".toList "Message".toList, none)
      ∧ (sendMessage browser 1700000000000
          (ChatReply.response ⟨true, [utf8Encode "data: \x7b\"text\":\"Salut\"\x7d\n".toList], false⟩)
          (pageWith "hi".toList "Message".toList)).1.chatMessages
        = [Node.message Sender.user "hi".toList, Node.message Sender.bot "Salut".toList] :=
  ⟨(sendMessage_turns browser 1700000000000 ChatReply.rejected
      (pageWith " \n".toList "Message".toList) (by decide)).1 (by decide),
   ((sendMessage_turns browser 1700000000000
      (ChatReply.response ⟨true, [utf8Encode "data: \x7b\"text\":\"Salut\"\x7d\n".toList], false⟩)
      (pageWith "hi".toList "Message".toList) (by decide)).2 (by decide)).1⟩

/-- C10 as written fails: a stream that carries no text fragment leaves a bot
turn with empty text in the display. -/
theorem sendMessage_empty_bot_turn :
    (sendMessage browser 1700000000000
        (ChatReply.response ⟨true, [utf8Encode "data: [DONE]\n".toList], false⟩)
        (pageWith "hi".toList "Message".toList)).1.chatMessages
      = [Node.message Sender.user "hi".toList, Node.message Sender.bot []] := by
  decide

/-! ### The streamed bubble -/

theorem streamChatResponse_bubble (env : Platform) (message typingId : Str)
    (chunks : List (List Nat)) (p : Page) :
    (streamChatResponse env message typingId (ChatReply.response ⟨true, chunks, false⟩)
        p).1.chatMessages.getLast?
      = some (Node.message Sender.bot (streamedHtml env chunks)) := by
  unfold streamChatResponse streamChatResponseTry
  simp only [Bool.not_true, Bool.false_eq_true, if_false, set_append_singleton]
  simp [streamedHtml]

/-- C1, as amended: the text accumulated when the reader signals completion is
the concatenation, in arrival order, of the fragments of the lines of the
chunks, where a line delivers a fragment exactly when it starts with `data: `,
its trimmed payload is not `[DONE]` and parses as JSON, and the `text` member
of the parsed value is truthy and has a string form; every other line adds
nothing and stops nothing. The bubble shows `formatMarkdown` of the accumulated text. -/
theorem streamChatResponse_accumulates (env : Platform) (chunks : List (List Nat)) :
    streamedText env chunks
        = ((streamLines env chunks).filterMap (eventFragment env)).flatten
      ∧ streamedHtml env chunks = formatMarkdown (streamedText env chunks)
      ∧ ∀ (message typingId : Str) (p : Page),
          (streamChatResponse env message typingId
              (ChatReply.response ⟨true, chunks, false⟩) p).1.chatMessages.getLast?
            = some (Node.message Sender.bot (formatMarkdown (streamedText env chunks))) := by
  obtain ⟨h1, h2⟩ := streamedText_eq env chunks
  refine ⟨h1, h2, fun m t p => ?_⟩
  rw [streamChatResponse_bubble, h2]

/-- The examples of C1: two events and `[DONE]` give `AB`; a malformed event
between two events is skipped; so is a `[DONE]` line in mid-stream. -/
theorem streamedText_examples :
    streamedText browser
        [utf8Encode "data: \x7b\"text\":\"A\"\x7d\n".toList,
         utf8Encode "data: \x7b\"text\":\"B\"\x7d\n".toList,
         utf8Encode "data: [DONE]\n".toList] = "AB".toList
      ∧ streamedText browser
        [utf8Encode "data: \x7b\"text\":\"A\"\x7d\n".toList,
         utf8Encode "data: \x7bnot-json\x7d\n".toList,
         utf8Encode "data: \x7b\"text\":\"B\"\x7d\n".toList] = "AB".toList
      ∧ streamedText browser
        [utf8Encode "data: \x7b\"text\":\"A\"\x7d\ndata: [DONE]\ndata: \x7b\"text\":\"B\"\x7d\n".toList]
          = "AB".toList := by
  decide

/-- C1 as written fails: the payload `{"text":0}` parses as JSON with a
`text` member, yet the loop appends nothing for it, since it tests the member
for truthiness. -/
theorem streamedText_skips_falsy_text :
    streamedText browser
        [utf8Encode "data: \x7b\"text\":\"A\"\x7d\n".toList,
         utf8Encode "data: \x7b\"text\":0\x7d\n".toList,
         utf8Encode "data: \x7b\"text\":\"B\"\x7d\n".toList] = "AB".toList
      ∧ claimedText browser
        [utf8Encode "data: \x7b\"text\":\"A\"\x7d\n".toList,
         utf8Encode "data: \x7b\"text\":0\x7d\n".toList,
         utf8Encode "data: \x7b\"text\":\"B\"\x7d\n".toList] = "A0B".toList
      ∧ streamedText browser
        [utf8Encode "data: \x7b\"text\":\"A\"\x7d\n".toList,
         utf8Encode "data: \x7b\"text\":0\x7d\n".toList,
         utf8Encode "data: \x7b\"text\":\"B\"\x7d\n".toList]
        ≠ claimedText browser
        [utf8Encode "data: \x7b\"text\":\"A\"\x7d\n".toList,
         utf8Encode "data: \x7b\"text\":0\x7d\n".toList,
         utf8Encode "data: \x7b\"text\":\"B\"\x7d\n".toList] := by
  decide


/-! ### Transcription -/

theorem transcribeAudio_restores (env : Platform) (blobType : Str) (reply : TranscribeReply)
    (p : Page) :
    (transcribeAudio env blobType reply p).2 = none
      ∧ (transcribeAudio env blobType reply p).1.inputDisabled = false
      ∧ (transcribeAudio env blobType reply p).1.inputPlaceholder = p.inputPlaceholder := by
  have key : ∀ (q : Page) (o : Str) (out : Outcome),
      transcribeAudioTry env blobType o reply q = out →
      out.2 = none → out.1.inputDisabled = false ∧ out.1.inputPlaceholder = o := by
    intro q o out h hn
    unfold transcribeAudioTry at h
    simp only at h
    split at h
    · subst h; simp at hn
    · split at h
      · repeat' split at h
        all_goals (subst h; simp at hn)
      · repeat' split at h
        all_goals (subst h; first | (simp at hn; done) | exact ⟨rfl, rfl⟩)
  unfold transcribeAudio
  simp only
  cases h : transcribeAudioTry env blobType p.inputPlaceholder reply
      { p with inputPlaceholder := transcribingPlaceholder, inputDisabled := true } with
  | mk q e =>
    cases e with
    | none =>
      obtain ⟨h1, h2⟩ := key _ _ _ h rfl
      exact ⟨rfl, h1, h2⟩
    | some e => exact ⟨rfl, rfl, rfl⟩

/-- C9: whatever the outcome of the upload, `transcribeAudio` returns without
throwing, with the message input enabled and its placeholder equal to the one
it had when the call started; so the stop callback goes on to release every
track. -/
theorem transcribeAudio_always_restores_input (env : Platform) (blobType : Str)
    (reply : TranscribeReply) (s : Session) (p : Page) :
    (transcribeAudio env blobType reply p).2 = none
      ∧ (transcribeAudio env blobType reply p).1.inputDisabled = false
      ∧ (transcribeAudio env blobType reply p).1.inputPlaceholder = p.inputPlaceholder
      ∧ (onstop env reply s p).1.liveTracks = 0
      ∧ (onstop env reply s p).2.2 = none := by
  obtain ⟨h1, h2, h3⟩ := transcribeAudio_restores env blobType reply p
  refine ⟨h1, h2, h3, ?_, ?_⟩
  all_goals
    unfold onstop
    simp only
    have := (transcribeAudio_restores env
      (if s.mimeType = [] then "audio/webm".toList else s.mimeType) reply p).1
    revert this
    cases transcribeAudio env (if s.mimeType = [] then "audio/webm".toList else s.mimeType)
      reply p with
    | mk q e =>
      intro h
      simp only at h
      subst h
      rfl

theorem getProp_none_iff (data : JSValue) (k1 k2 : Str) :
    getProp data k1 = none → getProp data k2 = none := by
  cases data <;> simp [getProp]

theorem truthy_undefined : truthy JSValue.undefined = false := rfl

/-- C8, as amended: for every OK response, with `corrected` and `raw` the two
members `data.corrected` and `data.raw` of the parsed body (`undefined` when the
body does not parse, is `null`, or lacks the member): when `corrected` is truthy
the string assigned to the input's value is that member's (also when `raw` is
present); when `corrected` is falsy and `raw` is truthy it is that of `raw`; when
neither is truthy the call alerts and leaves the value as it was; and so it does
when the chosen member has no string form. -/
theorem transcribeAudio_chooses_truthy (env : Platform) (blobType body : Str) (p : Page) :
    (∀ s, truthy (bodyMember env body "corrected".toList) = true →
        toStr (bodyMember env body "corrected".toList) = some s →
        (transcribeAudio env blobType (TranscribeReply.response ⟨true, body⟩) p).1.inputValue = s
          ∧ (transcribeAudio env blobType (TranscribeReply.response ⟨true, body⟩) p).1.alerts
              = p.alerts)
      ∧ (∀ s, truthy (bodyMember env body "corrected".toList) = false →
        truthy (bodyMember env body "raw".toList) = true →
        toStr (bodyMember env body "raw".toList) = some s →
        (transcribeAudio env blobType (TranscribeReply.response ⟨true, body⟩) p).1.inputValue = s
          ∧ (transcribeAudio env blobType (TranscribeReply.response ⟨true, body⟩) p).1.alerts
              = p.alerts)
      ∧ (truthy (bodyMember env body "corrected".toList) = false →
        truthy (bodyMember env body "raw".toList) = false →
        (transcribeAudio env blobType (TranscribeReply.response ⟨true, body⟩) p).1.inputValue
            = p.inputValue
          ∧ (transcribeAudio env blobType (TranscribeReply.response ⟨true, body⟩) p).1.alerts
              = p.alerts ++ [transcribeAlert])
      ∧ (truthy (bodyMember env body "corrected".toList) = true →
        toStr (bodyMember env body "corrected".toList) = none →
        (transcribeAudio env blobType (TranscribeReply.response ⟨true, body⟩) p).1.inputValue
            = p.inputValue
          ∧ (transcribeAudio env blobType (TranscribeReply.response ⟨true, body⟩) p).1.alerts
              = p.alerts ++ [transcribeAlert])
      ∧ (truthy (bodyMember env body "corrected".toList) = false →
        truthy (bodyMember env body "raw".toList) = true →
        toStr (bodyMember env body "raw".toList) = none →
        (transcribeAudio env blobType (TranscribeReply.response ⟨true, body⟩) p).1.inputValue
            = p.inputValue
          ∧ (transcribeAudio env blobType (TranscribeReply.response ⟨true, body⟩) p).1.alerts
              = p.alerts ++ [transcribeAlert]) := by
  unfold bodyMember
  cases hparse : env.jsonParse body with
  | none =>
    refine ⟨fun s h => absurd h (by decide), fun s _ h => absurd h (by decide), fun _ _ => ?_,
      fun h => absurd h (by decide), fun _ h => absurd h (by decide)⟩
    unfold transcribeAudio transcribeAudioTry
    simp only [Bool.not_true, Bool.false_eq_true, if_false, hparse]
    simp
  | some data =>
    simp only
    cases hc : getProp data "corrected".toList with
    | none =>
      have hr : getProp data "raw".toList = none := getProp_none_iff data _ _ hc
      simp only [hr, Option.getD_none]
      refine ⟨fun s h => absurd h (by decide), fun s _ h => absurd h (by decide), fun _ _ => ?_,
        fun h => absurd h (by decide), fun _ h => absurd h (by decide)⟩
      unfold transcribeAudio transcribeAudioTry
      simp only [Bool.not_true, Bool.false_eq_true, if_false, hparse, hc, hr]
      simp
    | some corrected =>
      cases hr : getProp data "raw".toList with
      | none =>
        have := getProp_none_iff data "raw".toList "corrected".toList hr
        rw [hc] at this
        cases this
      | some raw =>
        simp only [Option.getD_some]
        refine ⟨fun s h1 h2 => ?_, fun s h1 h2 h3 => ?_, fun h1 h2 => ?_, fun h1 h2 => ?_,
          fun h1 h2 h3 => ?_⟩
        all_goals
          unfold transcribeAudio transcribeAudioTry
          simp only [Bool.not_true, Bool.false_eq_true, if_false, hparse, hc, hr, jsOr]
        · simp [h1, h2]
        · simp [h1, h2, h3]
        · simp [h1, h2]
        · simp [h1, h2]
        · simp [h1, h2, h3]

/-- Two instances of the amended C8: both members present, and the body `null`. -/
theorem transcribeAudio_chooses_truthy_witness :
    ((transcribeAudio browser "audio/webm".toList
        (TranscribeReply.response ⟨true, "\x7b\"corrected\":\"hello\",\"raw\":\"helo\"\x7d".toList⟩)
        (pageWith "draft".toList "Message".toList)).1.inputValue = "hello".toList
      ∧ (transcribeAudio browser "audio/webm".toList
        (TranscribeReply.response ⟨true, "\x7b\"corrected\":\"hello\",\"raw\":\"helo\"\x7d".toList⟩)
        (pageWith "draft".toList "Message".toList)).1.alerts = [])
      ∧ ((transcribeAudio browser "audio/webm".toList
        (TranscribeReply.response ⟨true, "null".toList⟩)
        (pageWith "draft".toList "Message".toList)).1.inputValue = "draft".toList
      ∧ (transcribeAudio browser "audio/webm".toList
        (TranscribeReply.response ⟨true, "null".toList⟩)
        (pageWith "draft".toList "Message".toList)).1.alerts = [transcribeAlert]) :=
  ⟨(transcribeAudio_chooses_truthy browser "audio/webm".toList
      "\x7b\"corrected\":\"hello\",\"raw\":\"helo\"\x7d".toList
      (pageWith "draft".toList "Message".toList)).1 "hello".toList (by decide) (by decide),
   (transcribeAudio_chooses_truthy browser "audio/webm".toList "null".toList
      (pageWith "draft".toList "Message".toList)).2.2.1 (by decide) (by decide)⟩

/-- The examples of C8: `corrected` alone, `raw` alone, and the empty object,
which takes the alert path and leaves the draft in the input. -/
theorem transcribeAudio_examples :
    (transcribeAudio browser "audio/webm".toList
        (TranscribeReply.response ⟨true, "\x7b\"corrected\":\"hello\"\x7d".toList⟩)
        (pageWith [] "Message".toList)).1.inputValue = "hello".toList
      ∧ (transcribeAudio browser "audio/webm".toList
        (TranscribeReply.response ⟨true, "\x7b\"raw\":\"helo\"\x7d".toList⟩)
        (pageWith [] "Message".toList)).1.inputValue = "helo".toList
      ∧ (transcribeAudio browser "audio/webm".toList
        (TranscribeReply.response ⟨true, "\x7b\x7d".toList⟩)
        (pageWith "draft".toList "Message".toList)).1.inputValue = "draft".toList
      ∧ (transcribeAudio browser "audio/webm".toList
        (TranscribeReply.response ⟨true, "\x7b\x7d".toList⟩)
        (pageWith "draft".toList "Message".toList)).1.alerts = [transcribeAlert] := by
  decide

/-- C8 as written fails: with an empty `corrected` member the input receives
`raw` instead, and with an empty `corrected` member alone the call alerts. -/
theorem transcribeAudio_empty_corrected :
    ((browser.jsonParse "\x7b\"corrected\":\"\",\"raw\":\"x\"\x7d".toList).bind
        (fun data => getProp data "corrected".toList)).bind toStr = some []
      ∧ (transcribeAudio browser "audio/webm".toList
        (TranscribeReply.response ⟨true, "\x7b\"corrected\":\"\",\"raw\":\"x\"\x7d".toList⟩)
        (pageWith "draft".toList "Message".toList)).1.inputValue = "x".toList
      ∧ (transcribeAudio browser "audio/webm".toList
        (TranscribeReply.response ⟨true, "\x7b\"corrected\":\"\"\x7d".toList⟩)
        (pageWith "draft".toList "Message".toList)).1.inputValue = "draft".toList
      ∧ (transcribeAudio browser "audio/webm".toList
        (TranscribeReply.response ⟨true, "\x7b\"corrected\":\"\"\x7d".toList⟩)
        (pageWith "draft".toList "Message".toList)).1.alerts = [transcribeAlert] := by
  decide

end EminesChat
